import Mathlib

/-!
Verification development for the `strcursor` rune cursor (`rune.go`).

The Go code is shallowly embedded: bytes are `Nat` (values `< 256` in practice),
runes are `Nat` codepoints, the `io.Reader` is a deterministic list of byte
chunks threaded through every operation, and the singly-linked read-ahead
buffer is a `List (Nat × Nat)` of `(rune, width)` pairs.  All functions are
executable and mirror the Go control flow statement by statement, including
its quirks (the read-ahead list being replaced rather than appended to when
new runes are decoded, `buflen` being overwritten by the byte count of the
latest read, `Consume` not updating `rabuflen`, and `Advance` not committing
the new list head on its error path).
-/

namespace Strcursor

/-- Model of Go `utf8.RuneError` (U+FFFD). -/
def runeError : Nat := 0xFFFD

/-- Model of Go `utf8.DecodeRune` / `utf8.DecodeRuneInString`: decode the first
UTF-8 sequence of the byte list, returning `(rune, width)`; malformed input
yields `(runeError, 1)` (or width 0 on empty input), enforcing shortest-form
encoding, the surrogate gap and the `U+10FFFF` bound exactly as Go does via
its acceptance ranges. -/
def decodeRune (p : List Nat) : Nat × Nat :=
  match p with
  | [] => (runeError, 0)
  | b0 :: rest =>
    if b0 < 0x80 then (b0, 1)
    else if b0 < 0xC2 then (runeError, 1)
    else if b0 < 0xE0 then
      match rest with
      | b1 :: _ =>
        if 0x80 ≤ b1 ∧ b1 ≤ 0xBF then ((b0 - 0xC0) * 64 + (b1 - 0x80), 2)
        else (runeError, 1)
      | _ => (runeError, 1)
    else if b0 < 0xF0 then
      match rest with
      | b1 :: b2 :: _ =>
        if (if b0 = 0xE0 then 0xA0 else 0x80) ≤ b1 ∧
            b1 ≤ (if b0 = 0xED then 0x9F else 0xBF) ∧
            0x80 ≤ b2 ∧ b2 ≤ 0xBF then
          ((b0 - 0xE0) * 4096 + (b1 - 0x80) * 64 + (b2 - 0x80), 3)
        else (runeError, 1)
      | _ => (runeError, 1)
    else if b0 < 0xF5 then
      match rest with
      | b1 :: b2 :: b3 :: _ =>
        if (if b0 = 0xF0 then 0x90 else 0x80) ≤ b1 ∧
            b1 ≤ (if b0 = 0xF4 then 0x8F else 0xBF) ∧
            0x80 ≤ b2 ∧ b2 ≤ 0xBF ∧ 0x80 ≤ b3 ∧ b3 ≤ 0xBF then
          ((b0 - 0xF0) * 262144 + (b1 - 0x80) * 4096 + (b2 - 0x80) * 64 + (b3 - 0x80), 4)
        else (runeError, 1)
      | _ => (runeError, 1)
    else (runeError, 1)

/-- A Unicode scalar value: in range and not a UTF-16 surrogate. -/
def ValidScalar (r : Nat) : Prop := r < 0x110000 ∧ (r < 0xD800 ∨ 0xDFFF < r)

instance (r : Nat) : Decidable (ValidScalar r) := by unfold ValidScalar; infer_instance

/-- Standard UTF-8 encoding of one scalar value (Go `utf8.EncodeRune` on valid
scalars). -/
def encodeRune (r : Nat) : List Nat :=
  if r < 0x80 then [r]
  else if r < 0x800 then [0xC0 + r / 64, 0x80 + r % 64]
  else if r < 0x10000 then [0xE0 + r / 4096, 0x80 + r / 64 % 64, 0x80 + r % 64]
  else [0xF0 + r / 262144, 0x80 + r / 4096 % 64, 0x80 + r / 64 % 64, 0x80 + r % 64]

/-- UTF-8 encoding of a rune sequence. -/
def encodeString : List Nat → List Nat
  | [] => []
  | r :: rs => encodeRune r ++ encodeString rs

/-- Model of Go `utf8.RuneCountInString`: step through the bytes with
`decodeRune`, counting one rune per decode attempt (invalid bytes count as
one rune of width 1, exactly as in Go). -/
def runeCountLoop (s : List Nat) : Nat → Nat
  | 0 => 0
  | fuel + 1 =>
    match s with
    | [] => 0
    | _ => 1 + runeCountLoop (s.drop (decodeRune s).2) fuel

/-- Rune count of a byte string (Go `utf8.RuneCountInString`). -/
def runeCount (s : List Nat) : Nat := runeCountLoop s s.length

/-- The byte source: a queue of byte chunks.  One `Read` call delivers at most
one chunk (truncated to the space offered, the remainder staying queued), and
an empty queue reports end-of-stream, matching the `io.Reader` contract as
used by the cursor (`bytesRead == 0` with an error means end-of-stream). -/
def ByteSrc : Type := List (List Nat)

/-- One `Read(buf)` call on the byte source given `space` free bytes: returns
the delivered bytes, the end-of-stream flag and the remaining source. -/
def readerRead (rd : ByteSrc) (space : Nat) : List Nat × Bool × ByteSrc :=
  match rd with
  | [] => ([], true, [])
  | ch :: rest =>
    let d := ch.take space
    let r := ch.drop space
    (d, false, if r.isEmpty then rest else r :: rest)

/-- The cursor state (`RuneCursor` in `rune.go`).  The `io.Reader` field is
externalized and threaded separately; `rabuf` is the linked read-ahead list as
a Lean list; `rabuflen` is the Go `int` counter (an `Int`, since the code
manipulates it independently of the actual list). -/
structure RuneCursor where
  buf : List Nat
  buflen : Nat
  bufpos : Nat
  column : Nat
  lineno : Nat
  nread : Nat
  rabuf : List (Nat × Nat)
  rabuflen : Int
  deriving DecidableEq, Repr

/-- `NewRuneCursor`: fresh cursor over a scratch buffer of `n` bytes
(defaulted to 40 when `n ≤ 0`), with `bufpos` forced to the end so the first
use refills. -/
def newRuneCursor (n : Int) : RuneCursor :=
  let n := if n ≤ 0 then 40 else n
  let nn := n.toNat
  { buf := List.replicate nn 0
    buflen := nn
    bufpos := nn
    column := 1
    lineno := 1
    nread := 0
    rabuf := []
    rabuflen := 0 }

/-- The decode loop body of `decodeIntoRuneBuffer`: starting at `bufpos`,
decode runes from `buf` while `bufpos < buflen`, stopping with an error flag
when a decode yields `utf8.RuneError`.  Returns the freshly decoded
`(rune, width)` nodes in order, the final `bufpos`, and the error flag.  The
fuel is `buflen - bufpos`, which bounds the iteration count since every
successful decode advances `bufpos` by at least one. -/
def decodeAvailLoop (buf : List Nat) (buflen : Nat) : Nat → Nat → List (Nat × Nat) × Nat × Bool
  | bufpos, 0 => ([], bufpos, false)
  | bufpos, fuel + 1 =>
    if bufpos < buflen then
      let rw := decodeRune (buf.drop bufpos)
      if rw.1 = runeError then ([], bufpos, true)
      else
        let rest := decodeAvailLoop buf buflen (bufpos + rw.2) fuel
        (rw :: rest.1, rest.2.1, rest.2.2)
    else ([], bufpos, false)

/-- `decodeIntoRuneBuffer`: decode everything available in the scratch buffer.
Faithful to the Go code: the local `last` pointer starts at `nil`, so when at
least one new rune is decoded the cursor's `rabuf` is REPLACED by the chain of
new nodes (any previously queued nodes are dropped), while `rabuflen` is
nevertheless incremented once per new node.  The returned error of the Go
function is ignored by both of its callers and is therefore dropped here. -/
def decodeIntoRuneBuffer (c : RuneCursor) : RuneCursor :=
  let res := decodeAvailLoop c.buf c.buflen c.bufpos (c.buflen - c.bufpos)
  { c with
    bufpos := res.2.1
    rabuf := if res.1.isEmpty then c.rabuf else res.1
    rabuflen := c.rabuflen + res.1.length }

/-- The Go `copy(c.buf, c.buf[c.bufpos:])` buffer compaction: positions past
the copied region keep their old (stale) contents. -/
def compactBuf (buf : List Nat) (pos : Nat) : List Nat :=
  buf.drop pos ++ buf.drop (buf.length - pos)

/-- Writing the bytes delivered by a `Read` call into `buf[pos:]`. -/
def writeAt (buf : List Nat) (pos : Nat) (d : List Nat) : List Nat :=
  buf.take pos ++ d ++ buf.drop (pos + d.length)

/-- Errors produced by `fillRuneBuffer`: the propagated read error
(end-of-stream), the stall error `"failed to fill read buffer"`, and the dead
`"unrecoverable error"` return (reachable in the model only when fuel runs
out). -/
inductive FillError where
  | eofErr
  | fillFailed
  | unrecoverable
  deriving DecidableEq, Repr

/-- The `for {}` loop of `fillRuneBuffer`, one constructor step per Go
iteration: decode, check the read-ahead count, compact, read, decode again,
and detect stalls against `prev` (the count at the end of the previous
iteration).  On a fatal failure the scratch buffer collapses
(`c.buf = []; c.buflen = 0`).  Fuel bounds the iterations; the stall check
guarantees `rabuflen` strictly grows per iteration, so `n + 2` fuel (as passed
by `fillRuneBuffer`) is never exhausted from any reachable state. -/
def fillLoop (n : Nat) : RuneCursor → ByteSrc → Int → Nat →
    Option FillError × RuneCursor × ByteSrc
  | c, rd, _, 0 => (some .unrecoverable, c, rd)
  | c, rd, prev, fuel + 1 =>
    let c1 := decodeIntoRuneBuffer c
    if (n : Int) ≤ c1.rabuflen then (none, c1, rd)
    else
      let buf2 := if c1.bufpos < c1.buflen then compactBuf c1.buf c1.bufpos else c1.buf
      let pos2 := if c1.buflen < c1.bufpos then 0 else c1.buflen - c1.bufpos
      let c2 := { c1 with buf := buf2, bufpos := pos2 }
      let rr := readerRead rd (c2.buf.length - c2.bufpos)
      if rr.1.isEmpty ∧ rr.2.1 then
        (some .eofErr, { c2 with buf := [], buflen := 0 }, rr.2.2)
      else
        let c3 := { c2 with buf := writeAt c2.buf c2.bufpos rr.1, buflen := rr.1.length }
        let c4 := decodeIntoRuneBuffer c3
        if prev = c4.rabuflen then
          (some .fillFailed, { c4 with buf := [], buflen := 0 }, rr.2.2)
        else fillLoop n c4 rr.2.2 c4.rabuflen fuel

/-- `fillRuneBuffer(n)`: succeed immediately when the read-ahead counter
already reports `n` runes, otherwise run the refill loop with `prev`
initialized to the current counter. -/
def fillRuneBuffer (c : RuneCursor) (rd : ByteSrc) (n : Nat) :
    Option FillError × RuneCursor × ByteSrc :=
  if (n : Int) ≤ c.rabuflen then (none, c, rd)
  else fillLoop n c rd c.rabuflen (n + 2)

/-- `Done()`: true iff `fillRuneBuffer(1)` fails. -/
def done (c : RuneCursor) (rd : ByteSrc) : Bool × RuneCursor × ByteSrc :=
  let r := fillRuneBuffer c rd 1
  (r.1.isSome, r.2.1, r.2.2)

/-- The `Advance` loop with the walking `head` pointer made explicit.  On the
error path (`head == nil` before `n` steps) the Go code returns WITHOUT
executing `c.rabuf = head`, so the per-entry updates of `nread`, `lineno`,
`column` and `rabuflen` performed so far are kept while `rabuf` itself is left
at its original value. -/
def advanceLoop : RuneCursor → List (Nat × Nat) → Nat → Option Unit × RuneCursor
  | c, head, 0 => (none, { c with rabuf := head })
  | c, [], _ + 1 => (some (), c)
  | c, (v, w) :: rest, m + 1 =>
    advanceLoop
      { c with
        nread := c.nread + w
        lineno := if v = 10 then c.lineno + 1 else c.lineno
        column := if v = 10 then 1 else c.column + 1
        rabuflen := c.rabuflen - 1 }
      rest m

/-- `Advance(n)`: advance the cursor `n` runes; `some ()` is the
`"failed to pop enough runes"` error. -/
def advance (c : RuneCursor) (n : Nat) : Option Unit × RuneCursor :=
  advanceLoop c c.rabuf n

/-- `Cur()`: fill one rune, remember the head node, `Advance(1)` (its error is
ignored), and return the remembered value.  When the fill fails the sentinel
`runeError` is returned.  `none` marks the Go nil-pointer dereference of
`head.val` (fill succeeded but the list is empty). -/
def cur (c : RuneCursor) (rd : ByteSrc) : Option Nat × RuneCursor × ByteSrc :=
  let r := fillRuneBuffer c rd 1
  match r.1 with
  | some _ => (some runeError, r.2.1, r.2.2)
  | none =>
    match r.2.1.rabuf with
    | [] => (none, r.2.1, r.2.2)
    | (v, _) :: _ => (some v, (advance r.2.1 1).2, r.2.2)

/-- `PeekN(n)`: fill `n` runes and return the `n`-th queued rune without
consuming.  On fill failure the sentinel `runeError` is returned; `none` marks
the Go nil-pointer dereference along the `cur = cur.next` walk (fill succeeded
but the list holds fewer than `n` nodes). -/
def peekN (c : RuneCursor) (rd : ByteSrc) (n : Nat) : Option Nat × RuneCursor × ByteSrc :=
  let r := fillRuneBuffer c rd n
  match r.1 with
  | some _ => (some runeError, r.2.1, r.2.2)
  | none =>
    match r.2.1.rabuf.get? (n - 1) with
    | none => (none, r.2.1, r.2.2)
    | some vw => (some vw.1, r.2.1, r.2.2)

/-- `Peek()` = `PeekN(1)`. -/
def peek (c : RuneCursor) (rd : ByteSrc) : Option Nat × RuneCursor × ByteSrc :=
  peekN c rd 1

/-- The matching walk of the private `hasPrefix`: compare queued entries with
the runes decoded from `s`, tracking the newline count and the running column
locally.  Returns `none` on mismatch (or when `s` is malformed or the queue
runs out), and `some (rest, nl, col)` on a full match, where `rest` is the
list node following the last matched entry. -/
def hasPrefixWalk : List (Nat × Nat) → List Nat → Nat → Nat →
    Option (List (Nat × Nat) × Nat × Nat)
  | [], _, _, _ => none
  | (v, _) :: rest, s, nl, col =>
    let rw := decodeRune s
    if rw.1 = runeError then none
    else
      let s' := s.drop rw.2
      if v = rw.1 then
        let nl' := if rw.1 = 10 then nl + 1 else nl
        let col' := if rw.1 = 10 then 1 else col + 1
        if s' = [] then some (rest, nl', col')
        else hasPrefixWalk rest s' nl' col'
      else none

/-- The private `hasPrefix(s, n, consume)`: fill `n` runes (failure returns
false), walk the queue against `s`, and on a full match with the consume flag
set, commit the new list head and the tracked line/column — note that, as in
the Go code, `rabuflen` is NOT decremented on consumption. -/
def hasPrefixCore (c : RuneCursor) (rd : ByteSrc) (s : List Nat) (n : Nat)
    (consume : Bool) : Bool × RuneCursor × ByteSrc :=
  let r := fillRuneBuffer c rd n
  match r.1 with
  | some _ => (false, r.2.1, r.2.2)
  | none =>
    match hasPrefixWalk r.2.1.rabuf s 0 r.2.1.column with
    | none => (false, r.2.1, r.2.2)
    | some (rest, nl, col) =>
      if consume then
        (true, { r.2.1 with rabuf := rest, column := col, lineno := r.2.1.lineno + nl },
          r.2.2)
      else (true, r.2.1, r.2.2)

/-- `HasPrefix(s)` (non-consuming). -/
def hasPrefixFn (c : RuneCursor) (rd : ByteSrc) (s : List Nat) :
    Bool × RuneCursor × ByteSrc :=
  hasPrefixCore c rd s (runeCount s) false

/-- `Consume(s)` (consuming on match). -/
def consume (c : RuneCursor) (rd : ByteSrc) (s : List Nat) :
    Bool × RuneCursor × ByteSrc :=
  hasPrefixCore c rd s (runeCount s) true

/-- `LineNumber()`. -/
def lineNumber (c : RuneCursor) : Nat := c.lineno

/-- `Column()`. -/
def columnOf (c : RuneCursor) : Nat := c.column

/-! Specification-side notions used by the theorems. -/

/-- The line/column update performed for one consumed rune: a newline bumps
the line and resets the column to 1, anything else bumps the column. -/
def posUpd (lc : Nat × Nat) (r : Nat) : Nat × Nat :=
  if r = 10 then (lc.1 + 1, 1) else (lc.1, lc.2 + 1)

/-- One public cursor operation. -/
inductive Op where
  | curOp
  | peekOp
  | peekNOp (n : Nat)
  | advanceOp (n : Nat)
  | hasPrefixOp (s : List Nat)
  | consumeOp (s : List Nat)
  | doneOp
  deriving DecidableEq, Repr

/-- Applying one public operation to a cursor and its byte source. -/
def step (cr : RuneCursor × ByteSrc) (op : Op) : RuneCursor × ByteSrc :=
  match op with
  | .curOp => (cur cr.1 cr.2).2
  | .peekOp => (peek cr.1 cr.2).2
  | .peekNOp n => (peekN cr.1 cr.2 n).2
  | .advanceOp n => ((advance cr.1 n).2, cr.2)
  | .hasPrefixOp s => (hasPrefixFn cr.1 cr.2 s).2
  | .consumeOp s => (consume cr.1 cr.2 s).2
  | .doneOp => (done cr.1 cr.2).2

/-- The runes an operation pops from the head of the read-ahead queue: one for
a successful `cur`, the walked entries for `advance`, the matched entries for
a successful `consume`, and nothing for the pure lookahead operations. -/
def consumedDelta (cr : RuneCursor × ByteSrc) (op : Op) : List Nat :=
  match op with
  | .curOp =>
    let r := fillRuneBuffer cr.1 cr.2 1
    match r.1 with
    | some _ => []
    | none => (r.2.1.rabuf.take 1).map Prod.fst
  | .advanceOp n => (cr.1.rabuf.take n).map Prod.fst
  | .consumeOp s =>
    let r := fillRuneBuffer cr.1 cr.2 (runeCount s)
    match r.1 with
    | some _ => []
    | none =>
      match hasPrefixWalk r.2.1.rabuf s 0 r.2.1.column with
      | none => []
      | some (rest, _, _) =>
        (r.2.1.rabuf.take (r.2.1.rabuf.length - rest.length)).map Prod.fst
  | _ => []

/-- Run a sequence of operations, collecting the stream of consumed runes. -/
def runTrace : RuneCursor × ByteSrc → List Op → (RuneCursor × ByteSrc) × List Nat
  | cr, [] => (cr, [])
  | cr, op :: ops =>
    let d := consumedDelta cr op
    let r := runTrace (step cr op) ops
    (r.1, d ++ r.2)

/-- `k` successive `Cur()` calls, collecting the returned runes. -/
def curRun : RuneCursor → ByteSrc → Nat → List (Option Nat) × RuneCursor × ByteSrc
  | c, rd, 0 => ([], c, rd)
  | c, rd, k + 1 =>
    let r := cur c rd
    let rest := curRun r.2.1 r.2.2 k
    (r.1 :: rest.1, rest.2)

/-- A sequence of `PeekN` calls with the given depths. -/
def peekRun : RuneCursor → ByteSrc → List Nat → RuneCursor × ByteSrc
  | c, rd, [] => (c, rd)
  | c, rd, n :: ns => peekRun (peekN c rd n).2.1 (peekN c rd n).2.2 ns

/-- The compaction/reposition step of one `fillRuneBuffer` iteration (lines
105–119 of `rune.go`): copy the unconsumed tail to the front when
`bufpos < buflen`, then reset `bufpos` to `buflen - bufpos` (or 0 when it ran
past `buflen`). -/
def afterCompact (c1 : RuneCursor) : RuneCursor :=
  { c1 with
    buf := if c1.bufpos < c1.buflen then compactBuf c1.buf c1.bufpos else c1.buf
    bufpos := if c1.buflen < c1.bufpos then 0 else c1.buflen - c1.bufpos }

/-- No queued entry carries the replacement character. -/
def NoErrorRune (l : List (Nat × Nat)) : Prop := ∀ p ∈ l, p.1 ≠ runeError

/-- A fatally collapsed cursor whose read-ahead queue has also drained. -/
def ExhaustedEmpty (c : RuneCursor) : Prop :=
  c.buf = [] ∧ c.buflen = 0 ∧ c.rabuf = [] ∧ c.rabuflen = 0

end Strcursor

namespace Strcursor

/-! Concrete executions deciding the counterexample-style claims. -/

/-- C2: splitting the input "éx" into two reads at byte offset 1 (inside the
2-byte codepoint U+00E9) makes `Cur` return the error sentinel and collapse
the cursor, while a single read returns U+00E9; with scratch capacity 1 the
spec's scenario likewise yields the sentinel instead of U+00E9.  This refutes
the incremental-decode claim on the code. -/
theorem C2_split_decode_fails :
    (cur (newRuneCursor 40) [[0xC3, 0xA9, 0x78]]).1 = some 0xE9 ∧
    (cur (newRuneCursor 40) [[0xC3], [0xA9, 0x78]]).1 = some runeError ∧
    (cur (newRuneCursor 1) [[0xC3, 0xA9, 0x78]]).1 = some runeError ∧
    (cur (newRuneCursor 1) [[0xC3, 0xA9, 0x78]]).2.1.buflen = 0 := by decide

/-- C9: delivering "a" and "b" in two separate reads, `fillRuneBuffer(2)`
reports success while the read-ahead list holds a single node, so the
`cur = cur.next` walk of `PeekN(2)` dereferences a nil pointer (the `none`
branch of the embedding). -/
theorem C9_fill_success_without_nodes :
    (fillRuneBuffer (newRuneCursor 40) [[97], [98]] 2).1 = none ∧
    (fillRuneBuffer (newRuneCursor 40) [[97], [98]] 2).2.1.rabuf.length = 1 ∧
    (peekN (newRuneCursor 40) [[97], [98]] 2).1 = none := by decide

/-- C3: the rune decoded from the second read REPLACES the queued rune `a`
instead of being appended after it, and `rabuflen` (2) disagrees with the
queue length (1); likewise a successful `Consume` removes the matched entry
but leaves `rabuflen` at 2. -/
theorem C3_queue_invariant_violated :
    (fillRuneBuffer (newRuneCursor 40) [[97], [98]] 2).2.1.rabuf = [(98, 1)] ∧
    (fillRuneBuffer (newRuneCursor 40) [[97], [98]] 2).2.1.rabuflen = 2 ∧
    (consume (newRuneCursor 40) [[97, 98]] [97]).1 = true ∧
    (consume (newRuneCursor 40) [[97, 98]] [97]).2.1.rabuf = [(98, 1)] ∧
    (consume (newRuneCursor 40) [[97, 98]] [97]).2.1.rabuflen = 2 := by decide

/-- C7 counterexample: `PeekN(5)` on the two-byte input "ab" fails and
collapses the scratch buffer to capacity 0, yet the next `Done()` returns
false and the next `Cur()` still returns `a` — the cursor is not permanently
exhausted after the collapse. -/
theorem C7_counterexample_not_exhausted :
    (peekN (newRuneCursor 40) [[97, 98]] 5).1 = some runeError ∧
    (peekN (newRuneCursor 40) [[97, 98]] 5).2.1.buf = [] ∧
    (peekN (newRuneCursor 40) [[97, 98]] 5).2.1.buflen = 0 ∧
    (done (peekN (newRuneCursor 40) [[97, 98]] 5).2.1
      (peekN (newRuneCursor 40) [[97, 98]] 5).2.2).1 = false ∧
    (cur (peekN (newRuneCursor 40) [[97, 98]] 5).2.1
      (peekN (newRuneCursor 40) [[97, 98]] 5).2.2).1 = some 97 := by decide

/-- C5 counterexample: a false `HasPrefix("a")` against the buffered input
"xy" does NOT leave the pending queue as it was before the call — the refill
performed by the matching walk decodes `x` and `y` into the previously empty
queue. -/
theorem C5_counterexample_queue_grows :
    (newRuneCursor 40).rabuf = [] ∧
    (hasPrefixFn (newRuneCursor 40) [[120, 121]] [97]).1 = false ∧
    (hasPrefixFn (newRuneCursor 40) [[120, 121]] [97]).2.1.rabuf
      = [(120, 1), (121, 1)] := by decide

/-- C6 counterexample: with exactly one queued rune `a`, `Advance(2)` fails
and keeps the counter updates of the walked entry (`column = 2`, `nread = 1`,
`rabuflen = 0`) while `rabuf` still holds the walked entry — the entry was
never removed from the queue, so the state matches neither "partial
consumption applied" nor "no consumption". -/
theorem C6_counterexample_shortfall :
    (advance (fillRuneBuffer (newRuneCursor 40) [[97]] 1).2.1 2).1 = some () ∧
    (advance (fillRuneBuffer (newRuneCursor 40) [[97]] 1).2.1 2).2.rabuf = [(97, 1)] ∧
    (advance (fillRuneBuffer (newRuneCursor 40) [[97]] 1).2.1 2).2.rabuflen = 0 ∧
    (advance (fillRuneBuffer (newRuneCursor 40) [[97]] 1).2.1 2).2.column = 2 ∧
    (advance (fillRuneBuffer (newRuneCursor 40) [[97]] 1).2.1 2).2.nread = 1 := by decide

/-- C1 counterexample: `U+FFFD` is a valid Unicode scalar with a valid UTF-8
encoding, but on the input `U+FFFD` followed by `x` the second `Cur` returns
the sentinel instead of `x`, so the cursor does not reproduce every valid
UTF-8 input. -/
theorem C1_counterexample_replacement_input :
    ValidScalar 0xFFFD ∧
    (curRun (newRuneCursor 40) [encodeString [0xFFFD, 120]] 2).1
      = [some runeError, some runeError] ∧
    [some runeError, some runeError] ≠ [0xFFFD, 120].map some := by decide

end Strcursor

namespace Strcursor

/-! UTF-8 round-trip: decoding at a correctly encoded scalar value recovers
exactly that scalar and its width, independent of the following bytes. -/

theorem encodeRune_length_pos (r : Nat) : 1 ≤ (encodeRune r).length := by
  rw [encodeRune]
  split_ifs <;> simp

theorem decodeRune_cons_ascii (r : Nat) (h : r < 0x80) (t : List Nat) :
    decodeRune (r :: t) = (r, 1) := by
  simp only [decodeRune]
  rw [if_pos h]

theorem decodeRune_cons_two (r : Nat) (h1 : 0x80 ≤ r) (h2 : r < 0x800) (t : List Nat) :
    decodeRune ((0xC0 + r / 64) :: (0x80 + r % 64) :: t) = (r, 2) := by
  simp only [decodeRune]
  rw [if_neg (by omega), if_neg (by omega), if_pos (by omega), if_pos (by omega)]
  simp only [Prod.mk.injEq]
  exact ⟨by omega, trivial⟩

theorem decodeRune_cons_three (r : Nat) (h1 : 0x800 ≤ r) (h2 : r < 0x10000)
    (hs : r < 0xD800 ∨ 0xDFFF < r) (t : List Nat) :
    decodeRune ((0xE0 + r / 4096) :: (0x80 + r / 64 % 64) :: (0x80 + r % 64) :: t)
      = (r, 3) := by
  simp only [decodeRune]
  rw [if_neg (by omega), if_neg (by omega), if_neg (by omega), if_pos (by omega)]
  by_cases hE0 : r < 0x1000
  · rw [if_pos (show (0xE0 : Nat) + r / 4096 = 0xE0 by omega),
      if_neg (show ¬((0xE0 : Nat) + r / 4096 = 0xED) by omega),
      if_pos (by omega)]
    simp only [Prod.mk.injEq]
    exact ⟨by omega, trivial⟩
  · by_cases hED : 0xD000 ≤ r ∧ r < 0xE000
    · rw [if_neg (show ¬((0xE0 : Nat) + r / 4096 = 0xE0) by omega),
        if_pos (show (0xE0 : Nat) + r / 4096 = 0xED by omega),
        if_pos (by omega)]
      simp only [Prod.mk.injEq]
      exact ⟨by omega, trivial⟩
    · rw [if_neg (show ¬((0xE0 : Nat) + r / 4096 = 0xE0) by omega),
        if_neg (show ¬((0xE0 : Nat) + r / 4096 = 0xED) by omega),
        if_pos (by omega)]
      simp only [Prod.mk.injEq]
      exact ⟨by omega, trivial⟩

theorem decodeRune_cons_four (r : Nat) (h1 : 0x10000 ≤ r) (h2 : r < 0x110000)
    (t : List Nat) :
    decodeRune ((0xF0 + r / 262144) :: (0x80 + r / 4096 % 64) ::
        (0x80 + r / 64 % 64) :: (0x80 + r % 64) :: t) = (r, 4) := by
  simp only [decodeRune]
  rw [if_neg (by omega), if_neg (by omega), if_neg (by omega), if_neg (by omega),
    if_pos (by omega)]
  by_cases hF0 : r < 0x40000
  · rw [if_pos (show (0xF0 : Nat) + r / 262144 = 0xF0 by omega),
      if_neg (show ¬((0xF0 : Nat) + r / 262144 = 0xF4) by omega),
      if_pos (by omega)]
    simp only [Prod.mk.injEq]
    exact ⟨by omega, trivial⟩
  · by_cases hF4 : 0x100000 ≤ r
    · rw [if_neg (show ¬((0xF0 : Nat) + r / 262144 = 0xF0) by omega),
        if_pos (show (0xF0 : Nat) + r / 262144 = 0xF4 by omega),
        if_pos (by omega)]
      simp only [Prod.mk.injEq]
      exact ⟨by omega, trivial⟩
    · rw [if_neg (show ¬((0xF0 : Nat) + r / 262144 = 0xF0) by omega),
        if_neg (show ¬((0xF0 : Nat) + r / 262144 = 0xF4) by omega),
        if_pos (by omega)]
      simp only [Prod.mk.injEq]
      exact ⟨by omega, trivial⟩

theorem decodeRune_encodeRune (r : Nat) (h : ValidScalar r) (t : List Nat) :
    decodeRune (encodeRune r ++ t) = (r, (encodeRune r).length) := by
  obtain ⟨h1, hs⟩ := h
  rcases Nat.lt_or_ge r 0x80 with ha | ha
  · have he : encodeRune r = [r] := by rw [encodeRune, if_pos ha]
    rw [he, List.singleton_append, decodeRune_cons_ascii r ha t]
    simp
  · rcases Nat.lt_or_ge r 0x800 with hb | hb
    · have he : encodeRune r = [0xC0 + r / 64, 0x80 + r % 64] := by
        rw [encodeRune, if_neg (by omega), if_pos hb]
      rw [he, List.cons_append, List.cons_append, List.nil_append,
        decodeRune_cons_two r ha hb t]
      simp
    · rcases Nat.lt_or_ge r 0x10000 with hc | hc
      · have he : encodeRune r = [0xE0 + r / 4096, 0x80 + r / 64 % 64, 0x80 + r % 64] := by
          rw [encodeRune, if_neg (by omega), if_neg (by omega), if_pos hc]
        rw [he, List.cons_append, List.cons_append, List.cons_append, List.nil_append,
          decodeRune_cons_three r hb hc hs t]
        simp
      · have he : encodeRune r
            = [0xF0 + r / 262144, 0x80 + r / 4096 % 64, 0x80 + r / 64 % 64, 0x80 + r % 64] := by
          rw [encodeRune, if_neg (by omega), if_neg (by omega), if_neg (by omega)]
        rw [he, List.cons_append, List.cons_append, List.cons_append, List.cons_append,
          List.nil_append, decodeRune_cons_four r hc h1 t]
        simp

end Strcursor

namespace Strcursor

/-- Unfolding step of the decode loop at a successfully decoding position. -/
theorem decodeAvailLoop_step (buf : List Nat) (buflen pos fuel : Nat)
    (hlt : pos < buflen) (hne : (decodeRune (buf.drop pos)).1 ≠ runeError) :
    decodeAvailLoop buf buflen pos (fuel + 1)
      = ((decodeRune (buf.drop pos)) ::
          (decodeAvailLoop buf buflen (pos + (decodeRune (buf.drop pos)).2) fuel).1,
        (decodeAvailLoop buf buflen (pos + (decodeRune (buf.drop pos)).2) fuel).2.1,
        (decodeAvailLoop buf buflen (pos + (decodeRune (buf.drop pos)).2) fuel).2.2) := by
  simp only [decodeAvailLoop]
  rw [if_pos hlt, if_neg hne]

/-- Running the decode loop over a window that holds exactly the UTF-8
encoding of `S` (followed by arbitrary bytes beyond `buflen`) decodes exactly
the runes of `S` with their widths and stops at the end of the window. -/
theorem decodeAvailLoop_encodes (S : List Nat) :
    (∀ r ∈ S, ValidScalar r ∧ r ≠ runeError) →
    ∀ (pos fuel : Nat) (buf tail : List Nat),
      buf.drop pos = encodeString S ++ tail →
      (encodeString S).length ≤ fuel →
      decodeAvailLoop buf (pos + (encodeString S).length) pos fuel
        = (S.map (fun r => (r, (encodeRune r).length)),
           pos + (encodeString S).length, false) := by
  induction S with
  | nil =>
    intro _ pos fuel buf tail _ _
    cases fuel <;> simp [decodeAvailLoop, encodeString]
  | cons r rs ih =>
    intro hS pos fuel buf tail hdrop hfuel
    have hvr := hS r (List.mem_cons_self r rs)
    have hrs : ∀ x ∈ rs, ValidScalar x ∧ x ≠ runeError :=
      fun x hx => hS x (List.mem_cons_of_mem r hx)
    have hw := encodeRune_length_pos r
    have hlen : (encodeString (r :: rs)).length
        = (encodeRune r).length + (encodeString rs).length := by
      show (encodeRune r ++ encodeString rs).length = _
      simp
    cases fuel with
    | zero => omega
    | succ f =>
      have hdec : decodeRune (buf.drop pos) = (r, (encodeRune r).length) := by
        rw [hdrop]
        show decodeRune (encodeRune r ++ encodeString rs ++ tail) = _
        rw [List.append_assoc]
        exact decodeRune_encodeRune r hvr.1 (encodeString rs ++ tail)
      have hne : (decodeRune (buf.drop pos)).1 ≠ runeError := by
        rw [hdec]; exact hvr.2
      have hlt : pos < pos + (encodeString (r :: rs)).length := by omega
      rw [decodeAvailLoop_step buf _ pos f hlt hne]
      simp only [hdec]
      have hdrop' : buf.drop (pos + (encodeRune r).length) = encodeString rs ++ tail := by
        rw [← List.drop_drop, hdrop]
        show ((encodeRune r ++ encodeString rs) ++ tail).drop (encodeRune r).length = _
        rw [List.append_assoc, List.drop_left]
      have hrec := ih hrs (pos + (encodeRune r).length) f buf tail hdrop' (by omega)
      have hbl : pos + (encodeString (r :: rs)).length
          = pos + (encodeRune r).length + (encodeString rs).length := by omega
      rw [hbl, hrec]
      simp

end Strcursor

namespace Strcursor

/-! Generic single-iteration equations for the refill loop. -/

theorem decodeIntoRuneBuffer_noop (c : RuneCursor) (h : c.buflen ≤ c.bufpos) :
    decodeIntoRuneBuffer c = c := by
  have h0 : c.buflen - c.bufpos = 0 := by omega
  simp [decodeIntoRuneBuffer, h0, decodeAvailLoop]

/-- Success exit of a loop iteration: after the initial decode the counter
reports enough runes. -/
theorem fillLoop_success (n : Nat) (c : RuneCursor) (rd : ByteSrc) (prev : Int)
    (fuel : Nat) (h : (n : Int) ≤ (decodeIntoRuneBuffer c).rabuflen) :
    fillLoop n c rd prev (fuel + 1) = (none, decodeIntoRuneBuffer c, rd) := by
  simp only [fillLoop]
  rw [if_pos h]

/-- End-of-stream exit of a loop iteration: the read returns no bytes with the
end-of-stream flag, so the buffer collapses and the read error propagates. -/
theorem fillLoop_eof (n : Nat) (c : RuneCursor) (rd : ByteSrc) (prev : Int)
    (fuel : Nat) (rd' : ByteSrc)
    (h1 : ¬ ((n : Int) ≤ (decodeIntoRuneBuffer c).rabuflen))
    (hread : readerRead rd ((afterCompact (decodeIntoRuneBuffer c)).buf.length
        - (afterCompact (decodeIntoRuneBuffer c)).bufpos) = ([], true, rd')) :
    fillLoop n c rd prev (fuel + 1)
      = (some FillError.eofErr,
         { afterCompact (decodeIntoRuneBuffer c) with buf := [], buflen := 0 }, rd') := by
  simp only [fillLoop, afterCompact] at hread ⊢
  rw [if_neg h1, hread]
  simp

/-- Continuing iteration: the read delivers bytes, they are written into the
compacted buffer and decoded; the iteration then either stalls or recurses. -/
theorem fillLoop_read (n : Nat) (c : RuneCursor) (rd : ByteSrc) (prev : Int)
    (fuel : Nat) (d : List Nat) (rd' : ByteSrc)
    (h1 : ¬ ((n : Int) ≤ (decodeIntoRuneBuffer c).rabuflen))
    (hread : readerRead rd ((afterCompact (decodeIntoRuneBuffer c)).buf.length
        - (afterCompact (decodeIntoRuneBuffer c)).bufpos) = (d, false, rd')) :
    fillLoop n c rd prev (fuel + 1)
      = (if prev = (decodeIntoRuneBuffer
            { afterCompact (decodeIntoRuneBuffer c) with
              buf := writeAt (afterCompact (decodeIntoRuneBuffer c)).buf
                  (afterCompact (decodeIntoRuneBuffer c)).bufpos d
              buflen := d.length }).rabuflen then
          (some FillError.fillFailed,
           { decodeIntoRuneBuffer
              { afterCompact (decodeIntoRuneBuffer c) with
                buf := writeAt (afterCompact (decodeIntoRuneBuffer c)).buf
                    (afterCompact (decodeIntoRuneBuffer c)).bufpos d
                buflen := d.length } with buf := [], buflen := 0 }, rd')
        else
          fillLoop n
            (decodeIntoRuneBuffer
              { afterCompact (decodeIntoRuneBuffer c) with
                buf := writeAt (afterCompact (decodeIntoRuneBuffer c)).buf
                    (afterCompact (decodeIntoRuneBuffer c)).bufpos d
                buflen := d.length })
            rd'
            (decodeIntoRuneBuffer
              { afterCompact (decodeIntoRuneBuffer c) with
                buf := writeAt (afterCompact (decodeIntoRuneBuffer c)).buf
                    (afterCompact (decodeIntoRuneBuffer c)).bufpos d
                buflen := d.length }).rabuflen fuel) := by
  simp only [fillLoop, afterCompact] at hread ⊢
  rw [if_neg h1, hread]
  simp

end Strcursor

namespace Strcursor

/-- `fillRuneBuffer` succeeds immediately when the counter already reports
enough runes. -/
theorem fillRuneBuffer_pre (c : RuneCursor) (rd : ByteSrc) (n : Nat)
    (h : (n : Int) ≤ c.rabuflen) : fillRuneBuffer c rd n = (none, c, rd) := by
  simp only [fillRuneBuffer]
  rw [if_pos h]

/-- `fillRuneBuffer` enters the refill loop otherwise. -/
theorem fillRuneBuffer_loop (c : RuneCursor) (rd : ByteSrc) (n : Nat)
    (h : ¬ ((n : Int) ≤ c.rabuflen)) :
    fillRuneBuffer c rd n = fillLoop n c rd c.rabuflen (n + 2) := by
  simp only [fillRuneBuffer]
  rw [if_neg h]

/-- A fresh cursor over a positive capacity, in explicit form. -/
theorem newRuneCursor_eq (cap : Nat) (hcap : 1 ≤ cap) :
    newRuneCursor (cap : Int) = ⟨List.replicate cap 0, cap, cap, 1, 1, 0, [], 0⟩ := by
  have hcap0 : ¬ ((cap : Int) ≤ 0) := by omega
  simp only [newRuneCursor, if_neg hcap0, Int.toNat_natCast]

/-- Filling one rune from a fresh cursor whose byte source delivers the whole
encoding of `S` in one read: the read-ahead queue becomes exactly the runes of
`S` with their widths, the scratch buffer holds the bytes (zero-padded), and
the source is drained. -/
theorem fill_single_read (S : List Nat) (hS : ∀ r ∈ S, ValidScalar r ∧ r ≠ runeError)
    (hne : S ≠ []) (cap : Nat) (hcap : 1 ≤ cap)
    (hlen : (encodeString S).length ≤ cap) :
    fillRuneBuffer (newRuneCursor (cap : Int)) [encodeString S] 1
      = (none,
          ⟨encodeString S ++ List.replicate (cap - (encodeString S).length) 0,
            (encodeString S).length, (encodeString S).length, 1, 1, 0,
            S.map (fun r => (r, (encodeRune r).length)), (S.length : Int)⟩,
          []) := by
  have hbs1 : 1 ≤ (encodeString S).length := by
    cases S with
    | nil => exact absurd rfl hne
    | cons r rs =>
      have := encodeRune_length_pos r
      show 1 ≤ (encodeRune r ++ encodeString rs).length
      rw [List.length_append]
      omega
  have hSlen : 1 ≤ S.length := by
    cases S with
    | nil => exact absurd rfl hne
    | cons r rs => simp
  have hmne : (S.map (fun r => (r, (encodeRune r).length))).isEmpty = false := by
    cases S with
    | nil => exact absurd rfl hne
    | cons r rs => simp [List.isEmpty]
  rw [newRuneCursor_eq cap hcap]
  have hn0 : decodeIntoRuneBuffer (⟨List.replicate cap 0, cap, cap, 1, 1, 0, [], 0⟩ : RuneCursor)
      = ⟨List.replicate cap 0, cap, cap, 1, 1, 0, [], 0⟩ :=
    decodeIntoRuneBuffer_noop _ (le_refl _)
  have hcomp0 : afterCompact (⟨List.replicate cap 0, cap, cap, 1, 1, 0, [], 0⟩ : RuneCursor)
      = ⟨List.replicate cap 0, cap, 0, 1, 1, 0, [], 0⟩ := by
    simp [afterCompact]
  have h1 : ¬ ((1 : Nat) : Int) ≤ (decodeIntoRuneBuffer
      (⟨List.replicate cap 0, cap, cap, 1, 1, 0, [], 0⟩ : RuneCursor)).rabuflen := by
    rw [hn0]
    show ¬ ((1 : Nat) : Int) ≤ (0 : Int)
    decide
  have hread1 : readerRead [encodeString S]
      ((afterCompact (decodeIntoRuneBuffer
          (⟨List.replicate cap 0, cap, cap, 1, 1, 0, [], 0⟩ : RuneCursor))).buf.length
        - (afterCompact (decodeIntoRuneBuffer
          (⟨List.replicate cap 0, cap, cap, 1, 1, 0, [], 0⟩ : RuneCursor))).bufpos)
      = (encodeString S, false, []) := by
    rw [hn0, hcomp0]
    show readerRead [encodeString S] ((List.replicate cap (0 : Nat)).length - 0) = _
    have htake : (encodeString S).take ((List.replicate cap (0 : Nat)).length - 0)
        = encodeString S := List.take_of_length_le (by simp [hlen])
    have hdrop : (encodeString S).drop ((List.replicate cap (0 : Nat)).length - 0)
        = [] := List.drop_eq_nil_of_le (by simp [hlen])
    simp [readerRead, htake, hdrop, hlen]
  have hpre : ¬ ((1 : Nat) : Int) ≤
      (⟨List.replicate cap 0, cap, cap, 1, 1, 0, [], 0⟩ : RuneCursor).rabuflen := by
    show ¬ ((1 : Nat) : Int) ≤ (0 : Int)
    decide
  rw [fillRuneBuffer_loop _ _ _ hpre]
  rw [show (1 : Nat) + 2 = 2 + 1 from rfl]
  rw [fillLoop_read 1 _ _ _ 2 (encodeString S) [] h1 hread1]
  rw [hn0, hcomp0]
  have hw : writeAt (List.replicate cap (0 : Nat)) 0 (encodeString S)
      = encodeString S ++ List.replicate (cap - (encodeString S).length) 0 := by
    simp [writeAt, List.drop_replicate]
  have hc4 : decodeIntoRuneBuffer
      (⟨encodeString S ++ List.replicate (cap - (encodeString S).length) 0,
        (encodeString S).length, 0, 1, 1, 0, [], 0⟩ : RuneCursor)
      = ⟨encodeString S ++ List.replicate (cap - (encodeString S).length) 0,
          (encodeString S).length, (encodeString S).length, 1, 1, 0,
          S.map (fun r => (r, (encodeRune r).length)), (S.length : Int)⟩ := by
    have hdl := decodeAvailLoop_encodes S hS 0 (encodeString S).length
      (encodeString S ++ List.replicate (cap - (encodeString S).length) 0)
      (List.replicate (cap - (encodeString S).length) 0) (by simp) (le_refl _)
    simp only [Nat.zero_add] at hdl
    simp only [decodeIntoRuneBuffer]
    try dsimp only
    rw [Nat.sub_zero, hdl]
    simp [hmne]
  try dsimp only
  rw [hw, hc4]
  rw [if_neg (show ¬ ((⟨List.replicate cap 0, cap, cap, 1, 1, 0, [], 0⟩ : RuneCursor).rabuflen
      = (⟨encodeString S ++ List.replicate (cap - (encodeString S).length) 0,
          (encodeString S).length, (encodeString S).length, 1, 1, 0,
          S.map (fun r => (r, (encodeRune r).length)), (S.length : Int)⟩ : RuneCursor).rabuflen)
    from by
      show ¬ ((0 : Int) = (S.length : Int))
      omega)]
  rw [show (2 : Nat) = 1 + 1 from rfl]
  have hn4 : decodeIntoRuneBuffer
      (⟨encodeString S ++ List.replicate (cap - (encodeString S).length) 0,
        (encodeString S).length, (encodeString S).length, 1, 1, 0,
        S.map (fun r => (r, (encodeRune r).length)), (S.length : Int)⟩ : RuneCursor)
      = ⟨encodeString S ++ List.replicate (cap - (encodeString S).length) 0,
          (encodeString S).length, (encodeString S).length, 1, 1, 0,
          S.map (fun r => (r, (encodeRune r).length)), (S.length : Int)⟩ :=
    decodeIntoRuneBuffer_noop _ (le_refl _)
  rw [fillLoop_success 1 _ [] _ 1
    (by rw [hn4]; show ((1 : Nat) : Int) ≤ ((S.length : Nat) : Int); omega)]
  rw [hn4]

end Strcursor

namespace Strcursor

/-- `Cur` on a cursor whose queue already holds a rune: the head is returned
and consumed, updating position per the newline rule. -/
theorem cur_of_pending (c : RuneCursor) (rd : ByteSrc) (v w : Nat)
    (rest : List (Nat × Nat)) (hq : c.rabuf = (v, w) :: rest)
    (hlen : (1 : Int) ≤ c.rabuflen) :
    cur c rd = (some v,
      { c with
        nread := c.nread + w,
        lineno := if v = 10 then c.lineno + 1 else c.lineno,
        column := if v = 10 then 1 else c.column + 1,
        rabuf := rest,
        rabuflen := c.rabuflen - 1 }, rd) := by
  simp only [cur, fillRuneBuffer_pre c rd 1 hlen, hq]
  simp [advance, advanceLoop, hq]

/-- Draining a queue that holds exactly the runes of `S` with `S.length`
`Cur` calls yields `S` and leaves the queue empty, the counter zero, and the
byte fields untouched (each call is satisfied by the pre-check, no I/O). -/
theorem curRun_drain (S : List Nat) :
    ∀ c : RuneCursor,
      c.rabuf = S.map (fun r => (r, (encodeRune r).length)) →
      c.rabuflen = (S.length : Int) →
      (curRun c [] S.length).1 = S.map some ∧
      (curRun c [] S.length).2.1.rabuf = [] ∧
      (curRun c [] S.length).2.1.rabuflen = 0 ∧
      (curRun c [] S.length).2.1.buflen = c.buflen ∧
      (curRun c [] S.length).2.1.bufpos = c.bufpos ∧
      (curRun c [] S.length).2.2 = [] := by
  induction S with
  | nil =>
    intro c h1 h2
    refine ⟨rfl, ?_, ?_, rfl, rfl, rfl⟩
    · exact h1
    · exact h2
  | cons s ss ih =>
    intro c h1 h2
    have hq : c.rabuf = (s, (encodeRune s).length) ::
        ss.map (fun r => (r, (encodeRune r).length)) := by
      rw [h1]; simp
    have hl1 : (1 : Int) ≤ c.rabuflen := by
      rw [h2]; simp
    have hcur := cur_of_pending c [] s (encodeRune s).length _ hq hl1
    have hlen1 : (s :: ss).length = ss.length + 1 := rfl
    rw [hlen1]
    simp only [curRun, hcur]
    have hrec := ih ({ c with
        nread := c.nread + (encodeRune s).length,
        lineno := if s = 10 then c.lineno + 1 else c.lineno,
        column := if s = 10 then 1 else c.column + 1,
        rabuf := ss.map (fun r => (r, (encodeRune r).length)),
        rabuflen := c.rabuflen - 1 }) (by simp) (by simp [h2])
    obtain ⟨hA, hB, hC, hD, hE, hG⟩ := hrec
    refine ⟨?_, ?_, ?_, ?_, ?_, ?_⟩
    · simp only [hA]; simp
    · exact hB
    · exact hC
    · rw [hD]
    · rw [hE]
    · exact hG

/-- On an empty byte source with an empty counter, `fillRuneBuffer(1)` fails
with the propagated end-of-stream error and collapses the buffer. -/
theorem fill_fails_at_eof (c : RuneCursor) (h0 : c.rabuflen = 0)
    (hbp : c.buflen ≤ c.bufpos) :
    fillRuneBuffer c [] 1 = (some FillError.eofErr,
      { afterCompact c with buf := [], buflen := 0 }, []) := by
  have hx : ¬ ((1 : Nat) : Int) ≤ c.rabuflen := by rw [h0]; decide
  rw [fillRuneBuffer_loop _ _ _ hx, show (1 : Nat) + 2 = 2 + 1 from rfl]
  have hn := decodeIntoRuneBuffer_noop c hbp
  have hread : readerRead [] ((afterCompact (decodeIntoRuneBuffer c)).buf.length
      - (afterCompact (decodeIntoRuneBuffer c)).bufpos) = ([], true, []) := rfl
  rw [fillLoop_eof 1 c [] c.rabuflen 2 [] (by rw [hn]; omega) hread, hn]

/-- `Done` is true on a drained cursor over an exhausted source. -/
theorem done_end (c : RuneCursor) (h0 : c.rabuflen = 0) (hbp : c.buflen ≤ c.bufpos) :
    (done c []).1 = true := by
  simp [done, fill_fails_at_eof c h0 hbp]

theorem curRun_congr_first (c c' : RuneCursor) (rd rd' : ByteSrc) (k : Nat)
    (h : cur c rd = cur c' rd') : curRun c rd (k + 1) = curRun c' rd' (k + 1) := by
  simp only [curRun, h]

end Strcursor

namespace Strcursor

/-- C1 (amended): for every sequence `S` of Unicode scalar values none of
which is U+FFFD, a cursor whose byte source delivers the UTF-8 encoding of
`S` in a single read (capacity at least the byte length) returns exactly the
runes of `S`, in order, over `S.length` calls of `Cur`, after which `Done`
returns true. -/
theorem C1_single_read_enumeration (S : List Nat)
    (hS : ∀ r ∈ S, ValidScalar r ∧ r ≠ runeError)
    (cap : Nat) (hcap : 1 ≤ cap) (hlen : (encodeString S).length ≤ cap) :
    (curRun (newRuneCursor (cap : Int)) [encodeString S] S.length).1 = S.map some ∧
    (done (curRun (newRuneCursor (cap : Int)) [encodeString S] S.length).2.1
        (curRun (newRuneCursor (cap : Int)) [encodeString S] S.length).2.2).1 = true := by
  by_cases hne : S = []
  · subst hne
    refine ⟨rfl, ?_⟩
    rw [newRuneCursor_eq cap hcap]
    show (done (⟨List.replicate cap 0, cap, cap, 1, 1, 0, [], 0⟩ : RuneCursor) [[]]).1 = true
    have hn0 : decodeIntoRuneBuffer
        (⟨List.replicate cap 0, cap, cap, 1, 1, 0, [], 0⟩ : RuneCursor)
        = ⟨List.replicate cap 0, cap, cap, 1, 1, 0, [], 0⟩ :=
      decodeIntoRuneBuffer_noop _ (le_refl _)
    have hcomp0 : afterCompact (⟨List.replicate cap 0, cap, cap, 1, 1, 0, [], 0⟩ : RuneCursor)
        = ⟨List.replicate cap 0, cap, 0, 1, 1, 0, [], 0⟩ := by
      simp [afterCompact]
    have h1 : ¬ ((1 : Nat) : Int) ≤ (decodeIntoRuneBuffer
        (⟨List.replicate cap 0, cap, cap, 1, 1, 0, [], 0⟩ : RuneCursor)).rabuflen := by
      rw [hn0]
      show ¬ ((1 : Nat) : Int) ≤ (0 : Int)
      decide
    have hpre : ¬ ((1 : Nat) : Int) ≤
        (⟨List.replicate cap 0, cap, cap, 1, 1, 0, [], 0⟩ : RuneCursor).rabuflen := by
      show ¬ ((1 : Nat) : Int) ≤ (0 : Int)
      decide
    have hread : readerRead [[]]
        ((afterCompact (decodeIntoRuneBuffer
            (⟨List.replicate cap 0, cap, cap, 1, 1, 0, [], 0⟩ : RuneCursor))).buf.length
          - (afterCompact (decodeIntoRuneBuffer
            (⟨List.replicate cap 0, cap, cap, 1, 1, 0, [], 0⟩ : RuneCursor))).bufpos)
        = ([], false, []) := by
      rw [hn0, hcomp0]
      show readerRead [[]] ((List.replicate cap (0 : Nat)).length - 0) = _
      simp [readerRead]
    simp only [done]
    rw [fillRuneBuffer_loop _ _ _ hpre, show (1 : Nat) + 2 = 2 + 1 from rfl]
    rw [fillLoop_read 1 _ _ _ 2 [] [] h1 hread]
    rw [hn0, hcomp0]
    have hwA : writeAt (List.replicate cap (0 : Nat)) 0 [] = List.replicate cap 0 := by
      simp [writeAt]
    try dsimp only
    rw [hwA]
    have hc4 : decodeIntoRuneBuffer (⟨List.replicate cap 0, 0, 0, 1, 1, 0, [], 0⟩ : RuneCursor)
        = ⟨List.replicate cap 0, 0, 0, 1, 1, 0, [], 0⟩ :=
      decodeIntoRuneBuffer_noop _ (le_refl _)
    rw [show (List.length ([] : List Nat)) = 0 from rfl] at *
    rw [hc4]
    rw [if_pos (show (⟨List.replicate cap 0, cap, cap, 1, 1, 0, [], 0⟩ : RuneCursor).rabuflen
        = (⟨List.replicate cap 0, 0, 0, 1, 1, 0, [], 0⟩ : RuneCursor).rabuflen from rfl)]
    rfl
  · obtain ⟨s, ss, rfl⟩ : ∃ s ss, S = s :: ss := by
      cases S with
      | nil => exact absurd rfl hne
      | cons a as => exact ⟨a, as, rfl⟩
    have hfill := fill_single_read (s :: ss) hS hne cap hcap hlen
    have hone : ((1 : Nat) : Int) ≤ (((s :: ss).length : Nat) : Int) := by
      simp
    have hcureq : cur (newRuneCursor (cap : Int)) [encodeString (s :: ss)]
        = cur (⟨encodeString (s :: ss)
            ++ List.replicate (cap - (encodeString (s :: ss)).length) 0,
          (encodeString (s :: ss)).length, (encodeString (s :: ss)).length, 1, 1, 0,
          (s :: ss).map (fun r => (r, (encodeRune r).length)),
          ((s :: ss).length : Int)⟩ : RuneCursor) [] := by
      simp only [cur, hfill]
      rw [fillRuneBuffer_pre _ [] 1 hone]
    have hlen1 : (s :: ss).length = ss.length + 1 := rfl
    rw [hlen1, curRun_congr_first _ _ _ _ _ hcureq, ← hlen1]
    have hdrain := curRun_drain (s :: ss)
      (⟨encodeString (s :: ss) ++ List.replicate (cap - (encodeString (s :: ss)).length) 0,
        (encodeString (s :: ss)).length, (encodeString (s :: ss)).length, 1, 1, 0,
        (s :: ss).map (fun r => (r, (encodeRune r).length)),
        ((s :: ss).length : Int)⟩ : RuneCursor) rfl rfl
    obtain ⟨hA, hB, hC, hD, hE, hG⟩ := hdrain
    refine ⟨hA, ?_⟩
    rw [hG]
    exact done_end _ hC (by rw [hD, hE])

end Strcursor

namespace Strcursor

/-! General facts about the refill loop: it never touches the position
fields, it only ever grows the rune counter, and with the fuel passed by
`fillRuneBuffer` it either succeeds with `rabuflen ≥ n` or fails having
collapsed the scratch buffer. -/

theorem decodeIntoRuneBuffer_lineno (c : RuneCursor) :
    (decodeIntoRuneBuffer c).lineno = c.lineno := by
  simp [decodeIntoRuneBuffer]

theorem decodeIntoRuneBuffer_column (c : RuneCursor) :
    (decodeIntoRuneBuffer c).column = c.column := by
  simp [decodeIntoRuneBuffer]

theorem decodeIntoRuneBuffer_nread (c : RuneCursor) :
    (decodeIntoRuneBuffer c).nread = c.nread := by
  simp [decodeIntoRuneBuffer]

theorem decodeIntoRuneBuffer_mono (c : RuneCursor) :
    c.rabuflen ≤ (decodeIntoRuneBuffer c).rabuflen := by
  simp only [decodeIntoRuneBuffer]
  omega

end Strcursor

namespace Strcursor

theorem readerRead_eof_empty (rd : ByteSrc) (s : Nat) :
    (readerRead rd s).2.1 = true → (readerRead rd s).1 = [] := by
  cases rd <;> simp [readerRead]

theorem fillLoop_frame (fuel : Nat) : ∀ (n : Nat) (c : RuneCursor) (rd : ByteSrc) (prev : Int),
    (fillLoop n c rd prev fuel).2.1.lineno = c.lineno ∧
    (fillLoop n c rd prev fuel).2.1.column = c.column ∧
    (fillLoop n c rd prev fuel).2.1.nread = c.nread := by
  induction fuel with
  | zero => intro n c rd prev; simp [fillLoop]
  | succ f ih =>
    intro n c rd prev
    by_cases hok : (n : Int) ≤ (decodeIntoRuneBuffer c).rabuflen
    · rw [fillLoop_success n c rd prev f hok]
      exact ⟨decodeIntoRuneBuffer_lineno c, decodeIntoRuneBuffer_column c,
        decodeIntoRuneBuffer_nread c⟩
    · obtain ⟨d, flag, rd', hrd⟩ : ∃ d flag rd',
          readerRead rd ((afterCompact (decodeIntoRuneBuffer c)).buf.length
            - (afterCompact (decodeIntoRuneBuffer c)).bufpos) = (d, flag, rd') :=
        ⟨_, _, _, rfl⟩
      cases flag with
      | true =>
        have hd : d = [] := by
          have h2 := readerRead_eof_empty rd
            ((afterCompact (decodeIntoRuneBuffer c)).buf.length
              - (afterCompact (decodeIntoRuneBuffer c)).bufpos)
          rw [hrd] at h2
          exact h2 rfl
        subst hd
        rw [fillLoop_eof n c rd prev f rd' hok hrd]
        refine ⟨?_, ?_, ?_⟩ <;>
          simp [afterCompact, decodeIntoRuneBuffer_lineno, decodeIntoRuneBuffer_column,
            decodeIntoRuneBuffer_nread]
      | false =>
        rw [fillLoop_read n c rd prev f d rd' hok hrd]
        split
        · refine ⟨?_, ?_, ?_⟩ <;>
            simp [afterCompact, decodeIntoRuneBuffer_lineno, decodeIntoRuneBuffer_column,
              decodeIntoRuneBuffer_nread]
        · obtain ⟨hl, hc, hn⟩ := ih n _ rd' _
          rw [hl, hc, hn]
          refine ⟨?_, ?_, ?_⟩ <;>
            simp [afterCompact, decodeIntoRuneBuffer_lineno, decodeIntoRuneBuffer_column,
              decodeIntoRuneBuffer_nread]

theorem fillRuneBuffer_frame (c : RuneCursor) (rd : ByteSrc) (n : Nat) :
    (fillRuneBuffer c rd n).2.1.lineno = c.lineno ∧
    (fillRuneBuffer c rd n).2.1.column = c.column ∧
    (fillRuneBuffer c rd n).2.1.nread = c.nread := by
  by_cases h : (n : Int) ≤ c.rabuflen
  · rw [fillRuneBuffer_pre c rd n h]
    exact ⟨rfl, rfl, rfl⟩
  · rw [fillRuneBuffer_loop c rd n h]
    exact fillLoop_frame (n + 2) n c rd c.rabuflen

theorem fillLoop_spec (fuel : Nat) : ∀ (n : Nat) (c : RuneCursor) (rd : ByteSrc),
    (n : Int) + 1 ≤ c.rabuflen + fuel → 1 ≤ fuel →
    ((fillLoop n c rd c.rabuflen fuel).1 = none →
      (n : Int) ≤ (fillLoop n c rd c.rabuflen fuel).2.1.rabuflen) ∧
    (∀ e, (fillLoop n c rd c.rabuflen fuel).1 = some e →
      (fillLoop n c rd c.rabuflen fuel).2.1.buf = [] ∧
      (fillLoop n c rd c.rabuflen fuel).2.1.buflen = 0 ∧
      (fillLoop n c rd c.rabuflen fuel).2.1.rabuflen < n) := by
  induction fuel with
  | zero => intro n c rd hf h1; omega
  | succ f ih =>
    intro n c rd hf _
    have hmc := decodeIntoRuneBuffer_mono c
    by_cases hok : (n : Int) ≤ (decodeIntoRuneBuffer c).rabuflen
    · rw [fillLoop_success n c rd c.rabuflen f hok]
      exact ⟨fun _ => hok, fun e he => by cases he⟩
    · obtain ⟨d, flag, rd', hrd⟩ : ∃ d flag rd',
          readerRead rd ((afterCompact (decodeIntoRuneBuffer c)).buf.length
            - (afterCompact (decodeIntoRuneBuffer c)).bufpos) = (d, flag, rd') :=
        ⟨_, _, _, rfl⟩
      cases flag with
      | true =>
        have hd : d = [] := by
          have h2 := readerRead_eof_empty rd
            ((afterCompact (decodeIntoRuneBuffer c)).buf.length
              - (afterCompact (decodeIntoRuneBuffer c)).bufpos)
          rw [hrd] at h2
          exact h2 rfl
        subst hd
        rw [fillLoop_eof n c rd c.rabuflen f rd' hok hrd]
        refine ⟨fun he => Option.noConfusion he, fun e _ => ⟨rfl, rfl, ?_⟩⟩
        show (afterCompact (decodeIntoRuneBuffer c)).rabuflen < (n : Int)
        have ha : (afterCompact (decodeIntoRuneBuffer c)).rabuflen
            = (decodeIntoRuneBuffer c).rabuflen := rfl
        omega
      | false =>
        rw [fillLoop_read n c rd c.rabuflen f d rd' hok hrd]
        set c4 := decodeIntoRuneBuffer
          { afterCompact (decodeIntoRuneBuffer c) with
            buf := writeAt (afterCompact (decodeIntoRuneBuffer c)).buf
                (afterCompact (decodeIntoRuneBuffer c)).bufpos d
            buflen := d.length } with hc4
        have hm1 : (decodeIntoRuneBuffer c).rabuflen ≤ c4.rabuflen := by
          rw [hc4]
          exact decodeIntoRuneBuffer_mono _
        split
        · rename_i hstall
          refine ⟨fun he => Option.noConfusion he, fun e _ => ⟨rfl, rfl, ?_⟩⟩
          show c4.rabuflen < (n : Int)
          omega
        · rename_i hstall
          exact ih n c4 rd' (by omega) (by omega)

end Strcursor

namespace Strcursor

theorem fillRuneBuffer_spec (c : RuneCursor) (rd : ByteSrc) (n : Nat)
    (h : (0 : Int) ≤ c.rabuflen) :
    ((fillRuneBuffer c rd n).1 = none →
      (n : Int) ≤ (fillRuneBuffer c rd n).2.1.rabuflen) ∧
    (∀ e, (fillRuneBuffer c rd n).1 = some e →
      (fillRuneBuffer c rd n).2.1.buf = [] ∧ (fillRuneBuffer c rd n).2.1.buflen = 0 ∧
      (fillRuneBuffer c rd n).2.1.rabuflen < n) := by
  by_cases hp : (n : Int) ≤ c.rabuflen
  · rw [fillRuneBuffer_pre c rd n hp]
    exact ⟨fun _ => hp, fun e he => Option.noConfusion he⟩
  · rw [fillRuneBuffer_loop c rd n hp]
    exact fillLoop_spec (n + 2) n c rd (by omega) (by omega)

theorem afterCompact_collapsed (c : RuneCursor) (hbl : c.buflen = 0) :
    afterCompact c = { c with bufpos := 0 } := by
  simp [afterCompact, hbl]

/-- A refill attempted on a collapsed scratch buffer always fails (either the
source is already drained, or the zero-capacity read makes no progress and
stalls), leaving only `bufpos` reset to 0. -/
theorem fill_collapsed (c : RuneCursor) (rd : ByteSrc) (n : Nat)
    (hbuf : c.buf = []) (hbl : c.buflen = 0) (hlt : ¬ ((n : Int) ≤ c.rabuflen)) :
    ∃ e rd', fillRuneBuffer c rd n
      = (some e, { c with buf := [], buflen := 0, bufpos := 0 }, rd') := by
  rw [fillRuneBuffer_loop c rd n hlt, show n + 2 = (n + 1) + 1 from rfl]
  have hnoop : decodeIntoRuneBuffer c = c := decodeIntoRuneBuffer_noop c (by omega)
  cases rd with
  | nil =>
    have hread : readerRead []
        ((afterCompact (decodeIntoRuneBuffer c)).buf.length
          - (afterCompact (decodeIntoRuneBuffer c)).bufpos) = ([], true, []) := rfl
    rw [fillLoop_eof n c [] c.rabuflen (n + 1) [] (by rw [hnoop]; exact hlt) hread]
    refine ⟨FillError.eofErr, [], ?_⟩
    rw [hnoop, afterCompact_collapsed c hbl]
  | cons ch rest =>
    have hread : readerRead (ch :: rest)
        ((afterCompact (decodeIntoRuneBuffer c)).buf.length
          - (afterCompact (decodeIntoRuneBuffer c)).bufpos)
        = ([], false, if ch.isEmpty then rest else ch :: rest) := by
      rw [hnoop, afterCompact_collapsed c hbl]
      show readerRead (ch :: rest) (c.buf.length - 0) = _
      rw [hbuf]
      show readerRead (ch :: rest) 0 = _
      simp [readerRead]
    rw [fillLoop_read n c (ch :: rest) c.rabuflen (n + 1) []
      (if ch.isEmpty then rest else ch :: rest) (by rw [hnoop]; exact hlt) hread]
    have hc3 : ({ afterCompact (decodeIntoRuneBuffer c) with
        buf := writeAt (afterCompact (decodeIntoRuneBuffer c)).buf
            (afterCompact (decodeIntoRuneBuffer c)).bufpos ([] : List Nat)
        buflen := ([] : List Nat).length } : RuneCursor)
        = { c with buf := [], buflen := 0, bufpos := 0 } := by
      rw [hnoop, afterCompact_collapsed c hbl]
      simp [writeAt, hbuf]
    rw [hc3]
    rw [decodeIntoRuneBuffer_noop ({ c with buf := [], buflen := 0, bufpos := 0 } : RuneCursor)
      (Nat.le.refl)]
    rw [if_pos rfl]
    exact ⟨FillError.fillFailed, _, rfl⟩

theorem fill_keeps_collapsed (c : RuneCursor) (rd : ByteSrc) (n : Nat)
    (hbuf : c.buf = []) (hbl : c.buflen = 0) :
    (fillRuneBuffer c rd n).2.1.buf = [] ∧ (fillRuneBuffer c rd n).2.1.buflen = 0 ∧
    (fillRuneBuffer c rd n).2.1.rabuf = c.rabuf ∧
    (fillRuneBuffer c rd n).2.1.rabuflen = c.rabuflen := by
  by_cases hp : (n : Int) ≤ c.rabuflen
  · rw [fillRuneBuffer_pre c rd n hp]
    exact ⟨hbuf, hbl, rfl, rfl⟩
  · obtain ⟨e, rd', heq⟩ := fill_collapsed c rd n hbuf hbl hp
    rw [heq]
    exact ⟨rfl, rfl, rfl, rfl⟩

theorem peekN_frame (c : RuneCursor) (rd : ByteSrc) (n : Nat) :
    (peekN c rd n).2.1.lineno = c.lineno ∧ (peekN c rd n).2.1.column = c.column := by
  obtain ⟨hl, hc, _⟩ := fillRuneBuffer_frame c rd n
  simp only [peekN]
  split
  · exact ⟨hl, hc⟩
  · split
    · exact ⟨hl, hc⟩
    · exact ⟨hl, hc⟩

theorem peekRun_frame (ns : List Nat) : ∀ (c : RuneCursor) (rd : ByteSrc),
    (peekRun c rd ns).1.lineno = c.lineno ∧ (peekRun c rd ns).1.column = c.column := by
  induction ns with
  | nil => intro c rd; exact ⟨rfl, rfl⟩
  | cons n ns ih =>
    intro c rd
    obtain ⟨h1, h2⟩ := peekN_frame c rd n
    obtain ⟨h3, h4⟩ := ih (peekN c rd n).2.1 (peekN c rd n).2.2
    constructor
    · simp only [peekRun]
      rw [h3, h1]
    · simp only [peekRun]
      rw [h4, h2]

theorem peekN_repeat_val (c : RuneCursor) (rd : ByteSrc) (n : Nat)
    (h : (0 : Int) ≤ c.rabuflen) :
    (peekN (peekN c rd n).2.1 (peekN c rd n).2.2 n).1 = (peekN c rd n).1 := by
  cases hfr : (fillRuneBuffer c rd n).1 with
  | none =>
    have hge := (fillRuneBuffer_spec c rd n h).1 hfr
    have hpre2 := fillRuneBuffer_pre (fillRuneBuffer c rd n).2.1
      (fillRuneBuffer c rd n).2.2 n hge
    cases hg : (fillRuneBuffer c rd n).2.1.rabuf[n - 1]? with
    | none => simp [peekN, hfr, hg, hpre2, List.get?_eq_getElem?]
    | some vw => simp [peekN, hfr, hg, hpre2, List.get?_eq_getElem?]
  | some e =>
    have hcol := (fillRuneBuffer_spec c rd n h).2 e hfr
    have hlt2 : ¬ ((n : Int) ≤ (fillRuneBuffer c rd n).2.1.rabuflen) := by
      have := hcol.2.2
      omega
    obtain ⟨e2, rd2, heq2⟩ := fill_collapsed (fillRuneBuffer c rd n).2.1
      (fillRuneBuffer c rd n).2.2 n hcol.1 hcol.2.1 hlt2
    simp [peekN, hfr, heq2]

/-- C8: a repeated `PeekN(n)` returns the same codepoint as the first call,
and no sequence of `Peek`/`PeekN` calls changes `LineNumber`/`Column`. -/
theorem C8_peek_stable (c : RuneCursor) (rd : ByteSrc) (n : Nat)
    (h : (0 : Int) ≤ c.rabuflen) :
    (peekN (peekN c rd n).2.1 (peekN c rd n).2.2 n).1 = (peekN c rd n).1 ∧
    (peekN c rd n).2.1.lineno = c.lineno ∧
    (peekN c rd n).2.1.column = c.column ∧
    ∀ ns : List Nat,
      (peekRun c rd ns).1.lineno = c.lineno ∧ (peekRun c rd ns).1.column = c.column :=
  ⟨peekN_repeat_val c rd n h, (peekN_frame c rd n).1, (peekN_frame c rd n).2,
    fun ns => peekRun_frame ns c rd⟩

/-- C8 witness at a concrete cursor, reader and depth. -/
theorem C8_peek_stable_witness :
    (peekN (peekN (newRuneCursor 40) [[97]] 1).2.1
        (peekN (newRuneCursor 40) [[97]] 1).2.2 1).1
      = (peekN (newRuneCursor 40) [[97]] 1).1 :=
  (C8_peek_stable (newRuneCursor 40) [[97]] 1 (by decide)).1

end Strcursor

namespace Strcursor

/-- Full characterization of the `Advance` walk: the first `min n |head|`
entries are accounted into `nread`/`lineno`/`column`/`rabuflen`; on success
(`|head| ≥ n`) the list head is committed past `n` entries, while on failure
the error is returned with `rabuf` left at its ORIGINAL value (the Go code
returns before executing `c.rabuf = head`). -/
theorem advanceLoop_spec (n : Nat) : ∀ (c : RuneCursor) (head : List (Nat × Nat)),
    advanceLoop c head n
      = (if head.length < n then some () else none,
         { c with
           nread := c.nread + ((head.take n).map Prod.snd).sum,
           lineno := (List.foldl posUpd (c.lineno, c.column) ((head.take n).map Prod.fst)).1,
           column := (List.foldl posUpd (c.lineno, c.column) ((head.take n).map Prod.fst)).2,
           rabuf := if head.length < n then c.rabuf else head.drop n,
           rabuflen := c.rabuflen - ((min n head.length : Nat) : Int) }) := by
  induction n with
  | zero =>
    intro c head
    simp [advanceLoop]
  | succ m ih =>
    intro c head
    cases head with
    | nil => simp [advanceLoop]
    | cons vw rest =>
      obtain ⟨v, w⟩ := vw
      simp only [advanceLoop]
      rw [ih]
      by_cases hv : v = 10 <;> by_cases hlt : rest.length < m <;>
        simp [posUpd, hv, hlt, Nat.succ_lt_succ_iff, List.take_succ_cons,
          List.drop_succ_cons, List.foldl_cons, Nat.succ_min_succ,
          RuneCursor.mk.injEq] <;>
        omega

end Strcursor

namespace Strcursor

/-- C6 (amended): `Advance(n)` walks the queue without any read from the byte
source: the first `min n |rabuf|` entries are accounted into `nread`, `lineno`,
`column` and `rabuflen`; it fails with the pop error iff fewer than `n`
entries are queued, and on failure the already-applied counter updates are not
rolled back — but the queue head pointer itself is left unchanged (the walked
entries remain in `rabuf`). -/
theorem C6_advance_characterization (c : RuneCursor) (n : Nat) (rd : ByteSrc) :
    advance c n
      = (if c.rabuf.length < n then some () else none,
         { c with
           nread := c.nread + ((c.rabuf.take n).map Prod.snd).sum,
           lineno := (List.foldl posUpd (c.lineno, c.column)
             ((c.rabuf.take n).map Prod.fst)).1,
           column := (List.foldl posUpd (c.lineno, c.column)
             ((c.rabuf.take n).map Prod.fst)).2,
           rabuf := if c.rabuf.length < n then c.rabuf else c.rabuf.drop n,
           rabuflen := c.rabuflen - ((min n c.rabuf.length : Nat) : Int) }) ∧
    (step (c, rd) (Op.advanceOp n)).2 = rd :=
  ⟨advanceLoop_spec n c c.rabuf, rfl⟩

theorem runeCount_pos (s : List Nat) (h : s ≠ []) : 1 ≤ runeCount s := by
  cases s with
  | nil => exact absurd rfl h
  | cons b t => simp [runeCount, runeCountLoop]

theorem fill_exhausted (c : RuneCursor) (rd : ByteSrc) (n : Nat)
    (hE : ExhaustedEmpty c) (hn : 1 ≤ n) :
    ∃ e rd', fillRuneBuffer c rd n
        = (some e, { c with buf := [], buflen := 0, bufpos := 0 }, rd') ∧
      ExhaustedEmpty ({ c with buf := [], buflen := 0, bufpos := 0 } : RuneCursor) := by
  obtain ⟨hbuf, hbl, hq, hlen⟩ := hE
  have hlt : ¬ ((n : Int) ≤ c.rabuflen) := by rw [hlen]; omega
  obtain ⟨e, rd', heq⟩ := fill_collapsed c rd n hbuf hbl hlt
  exact ⟨e, rd', heq, rfl, rfl, hq, hlen⟩

theorem hasPrefixCore_exhausted (c : RuneCursor) (rd : ByteSrc) (s : List Nat)
    (b : Bool) (hE : ExhaustedEmpty c) :
    (hasPrefixCore c rd s (runeCount s) b).1 = false ∧
    ExhaustedEmpty (hasPrefixCore c rd s (runeCount s) b).2.1 := by
  obtain ⟨hbuf, hbl, hq, hlen⟩ := hE
  by_cases hs : s = []
  · subst hs
    have hpre : fillRuneBuffer c rd (runeCount []) = (none, c, rd) :=
      fillRuneBuffer_pre c rd _ (by rw [hlen]; simp [runeCount, runeCountLoop])
    simp [hasPrefixCore, hpre, hq, hasPrefixWalk]
    exact ⟨hbuf, hbl, hq, hlen⟩
  · obtain ⟨e, rd', heq, hE'⟩ := fill_exhausted c rd (runeCount s)
      ⟨hbuf, hbl, hq, hlen⟩ (runeCount_pos s hs)
    simp [hasPrefixCore, heq]
    exact hE'

theorem step_keeps_collapsed (c : RuneCursor) (rd : ByteSrc) (op : Op)
    (hbuf : c.buf = []) (hbl : c.buflen = 0) :
    (step (c, rd) op).1.buf = [] ∧ (step (c, rd) op).1.buflen = 0 := by
  have hfixN : ∀ n, (fillRuneBuffer c rd n).2.1.buf = []
      ∧ (fillRuneBuffer c rd n).2.1.buflen = 0 := by
    intro n
    have h := fill_keeps_collapsed c rd n hbuf hbl
    exact ⟨h.1, h.2.1⟩
  cases op with
  | curOp =>
    simp only [step, cur]
    cases hfr : (fillRuneBuffer c rd 1).1 with
    | some e => simpa [hfr] using hfixN 1
    | none =>
      cases hqq : (fillRuneBuffer c rd 1).2.1.rabuf with
      | nil => simpa [hfr, hqq] using hfixN 1
      | cons vw rest =>
        obtain ⟨v, w⟩ := vw
        have hadv := advanceLoop_spec 1 (fillRuneBuffer c rd 1).2.1 ((v, w) :: rest)
        simpa [hfr, hqq, advance, hadv] using hfixN 1
  | peekOp =>
    simp only [step, peek, peekN]
    cases hfr : (fillRuneBuffer c rd 1).1 with
    | some e => simpa [hfr] using hfixN 1
    | none =>
      cases hg : (fillRuneBuffer c rd 1).2.1.rabuf[0]? with
      | none => simpa [hfr, hg, List.get?_eq_getElem?] using hfixN 1
      | some vw => simpa [hfr, hg, List.get?_eq_getElem?] using hfixN 1
  | peekNOp n =>
    simp only [step, peekN]
    cases hfr : (fillRuneBuffer c rd n).1 with
    | some e => simpa [hfr] using hfixN n
    | none =>
      cases hg : (fillRuneBuffer c rd n).2.1.rabuf[n - 1]? with
      | none => simpa [hfr, hg, List.get?_eq_getElem?] using hfixN n
      | some vw => simpa [hfr, hg, List.get?_eq_getElem?] using hfixN n
  | doneOp =>
    simp only [step, done]
    exact hfixN 1
  | advanceOp n =>
    simp only [step]
    rw [advance, advanceLoop_spec]
    exact ⟨hbuf, hbl⟩
  | hasPrefixOp s =>
    simp only [step, hasPrefixFn, hasPrefixCore]
    cases hfr : (fillRuneBuffer c rd (runeCount s)).1 with
    | some e => simpa [hfr] using hfixN (runeCount s)
    | none =>
      cases hwk : hasPrefixWalk (fillRuneBuffer c rd (runeCount s)).2.1.rabuf s 0
          (fillRuneBuffer c rd (runeCount s)).2.1.column with
      | none => simpa [hfr, hwk] using hfixN (runeCount s)
      | some out => simpa [hfr, hwk] using hfixN (runeCount s)
  | consumeOp s =>
    simp only [step, consume, hasPrefixCore]
    cases hfr : (fillRuneBuffer c rd (runeCount s)).1 with
    | some e => simpa [hfr] using hfixN (runeCount s)
    | none =>
      cases hwk : hasPrefixWalk (fillRuneBuffer c rd (runeCount s)).2.1.rabuf s 0
          (fillRuneBuffer c rd (runeCount s)).2.1.column with
      | none => simpa [hfr, hwk] using hfixN (runeCount s)
      | some out =>
        obtain ⟨rest, nl, col⟩ := out
        simpa [hfr, hwk] using hfixN (runeCount s)

end Strcursor

namespace Strcursor

/-- C7 (amended): a collapsed scratch buffer never recovers — every public
operation leaves `buf = []` and `buflen = 0` — and once the read-ahead queue
has also drained the cursor is permanently exhausted: `Done` is true, `Cur`
and `PeekN` return the sentinel, `HasPrefix`/`Consume` return false, and
every operation keeps the cursor in this exhausted-empty state.  (Before the
queue drains the original claim fails: queued runes are still served — see
the counterexample.) -/
theorem C7_collapse_permanent :
    (∀ (c : RuneCursor) (rd : ByteSrc) (op : Op), c.buf = [] → c.buflen = 0 →
      (step (c, rd) op).1.buf = [] ∧ (step (c, rd) op).1.buflen = 0) ∧
    (∀ (c : RuneCursor) (rd : ByteSrc), ExhaustedEmpty c →
      (done c rd).1 = true ∧
      (cur c rd).1 = some runeError ∧
      (∀ n, 1 ≤ n → (peekN c rd n).1 = some runeError) ∧
      (∀ s, (hasPrefixFn c rd s).1 = false) ∧
      (∀ s, (consume c rd s).1 = false) ∧
      (∀ op, ExhaustedEmpty (step (c, rd) op).1)) := by
  constructor
  · exact fun c rd op h1 h2 => step_keeps_collapsed c rd op h1 h2
  · intro c rd hE
    obtain ⟨e1, rd1, heq1, hE1⟩ := fill_exhausted c rd 1 hE (le_refl 1)
    obtain ⟨hbuf, hbl, hq, hlen⟩ := hE
    refine ⟨?_, ?_, ?_, ?_, ?_, ?_⟩
    · simp [done, heq1]
    · simp [cur, heq1]
    · intro n hn
      obtain ⟨e, rd', heq, _⟩ := fill_exhausted c rd n ⟨hbuf, hbl, hq, hlen⟩ hn
      simp [peekN, heq]
    · intro s
      exact (hasPrefixCore_exhausted c rd s false ⟨hbuf, hbl, hq, hlen⟩).1
    · intro s
      exact (hasPrefixCore_exhausted c rd s true ⟨hbuf, hbl, hq, hlen⟩).1
    · intro op
      cases op with
      | curOp =>
        simp only [step, cur]
        simp [heq1]
        exact hE1
      | peekOp =>
        simp only [step, peek, peekN]
        simp [heq1]
        exact hE1
      | peekNOp n =>
        by_cases hn : 1 ≤ n
        · obtain ⟨e, rd', heq, hE'⟩ := fill_exhausted c rd n ⟨hbuf, hbl, hq, hlen⟩ hn
          simp only [step, peekN]
          simp [heq]
          exact hE'
        · have hn0 : n = 0 := by omega
          subst hn0
          have hpre : fillRuneBuffer c rd 0 = (none, c, rd) :=
            fillRuneBuffer_pre c rd 0 (by omega)
          simp only [step, peekN]
          simp [hpre, hq]
          exact ⟨hbuf, hbl, hq, hlen⟩
      | doneOp =>
        simp only [step, done]
        simp [heq1]
        exact hE1
      | advanceOp n =>
        simp only [step]
        rw [advance, advanceLoop_spec]
        refine ⟨hbuf, hbl, ?_, ?_⟩
        · simp [hq]
        · simp [hlen, hq]
      | hasPrefixOp s =>
        simp only [step, hasPrefixFn]
        exact (hasPrefixCore_exhausted c rd s false ⟨hbuf, hbl, hq, hlen⟩).2
      | consumeOp s =>
        simp only [step, consume]
        exact (hasPrefixCore_exhausted c rd s true ⟨hbuf, hbl, hq, hlen⟩).2

/-- C7 witness: a concrete exhausted-empty cursor reports `Done`. -/
theorem C7_collapse_permanent_witness :
    (done (⟨[], 0, 0, 1, 1, 0, [], 0⟩ : RuneCursor) []).1 = true :=
  (C7_collapse_permanent.2 (⟨[], 0, 0, 1, 1, 0, [], 0⟩ : RuneCursor) []
    ⟨rfl, rfl, rfl, rfl⟩).1

end Strcursor

namespace Strcursor

/-- Characterization of a successful matching walk: some positive number `k`
of queue entries were matched; the returned node is `entries.drop k`, the
returned newline count is the starting count plus the newlines among the
matched runes, and the returned column results from folding the position
update over exactly the matched runes (for any starting line number). -/
theorem hasPrefixWalk_spec (entries : List (Nat × Nat)) : ∀ (s : List Nat) (nl col : Nat)
    (rest : List (Nat × Nat)) (nlO colO : Nat),
    hasPrefixWalk entries s nl col = some (rest, nlO, colO) →
    ∃ k, 1 ≤ k ∧ k ≤ entries.length ∧ rest = entries.drop k ∧
      ∃ d, nlO = nl + d ∧
        ∀ L : Nat, List.foldl posUpd (L, col) ((entries.take k).map Prod.fst)
          = (L + d, colO) := by
  induction entries with
  | nil =>
    intro s nl col rest nlO colO h
    exact absurd h (by simp [hasPrefixWalk])
  | cons vw t ih =>
    obtain ⟨v, w⟩ := vw
    intro s nl col rest nlO colO h
    simp only [hasPrefixWalk] at h
    by_cases h1 : (decodeRune s).1 = runeError
    · rw [if_pos h1] at h
      exact Option.noConfusion h
    · rw [if_neg h1] at h
      by_cases h2 : v = (decodeRune s).1
      · rw [if_pos h2] at h
        by_cases h3 : s.drop (decodeRune s).2 = []
        · rw [if_pos h3] at h
          simp only [Option.some.injEq, Prod.mk.injEq] at h
          obtain ⟨hr, hn, hc⟩ := h
          refine ⟨1, le_refl 1, by simp, hr.symm, if v = 10 then 1 else 0, ?_, ?_⟩
          · rw [← hn, ← h2]
            by_cases hv : v = 10 <;> simp [hv]
          · intro L
            rw [List.take_succ_cons, List.take_zero, List.map_cons, List.map_nil,
              List.foldl_cons, List.foldl_nil]
            rw [← hc, ← h2]
            by_cases hv : v = 10 <;> simp [posUpd, hv]
        · rw [if_neg h3] at h
          obtain ⟨k', hk1, hk2, hr, d', hd', hfold⟩ := ih _ _ _ _ _ _ h
          refine ⟨k' + 1, by omega, by simp; omega, ?_, (if v = 10 then 1 else 0) + d', ?_, ?_⟩
          · rw [List.drop_succ_cons]
            exact hr
          · rw [hd', ← h2]
            by_cases hv : v = 10
            · simp [hv]
              try omega
            · simp [hv]
              try omega
          · intro L
            rw [List.take_succ_cons, List.map_cons, List.foldl_cons]
            by_cases hv : v = 10
            · rw [show posUpd (L, col) v = (L + 1, 1) from by simp [posUpd, hv]]
              have hbase : (if (decodeRune s).1 = 10 then 1 else col + 1) = 1 := by
                rw [← h2, hv]
                simp
              rw [show L + (((if v = 10 then 1 else 0) : Nat) + d') = (L + 1) + d' from by
                simp [hv]; omega]
              have := hfold (L + 1)
              rw [hbase] at this
              exact this
            · rw [show posUpd (L, col) v = (L, col + 1) from by simp [posUpd, hv]]
              have hbase : (if (decodeRune s).1 = 10 then 1 else col + 1) = col + 1 := by
                rw [← h2]
                simp [hv]
              rw [show L + (((if v = 10 then 1 else 0) : Nat) + d') = L + d' from by
                simp [hv]]
              have := hfold L
              rw [hbase] at this
              exact this
      · rw [if_neg h2] at h
        exact Option.noConfusion h

end Strcursor

namespace Strcursor

/-- C5 (amended): `HasPrefix(s)` and `Consume(s)` on identical state return
the same boolean; `HasPrefix` never removes from the queue (its state is
exactly the refill state, which may have GROWN the queue — the original
"queue byte-for-byte identical" fails, see the counterexample); a false
result from either leaves the refill state untouched and line/column exactly
as before; a true `Consume` drops exactly the matched entries from the queue
head and commits their line/column updates atomically. -/
theorem C5_prefix_consume_agreement (c : RuneCursor) (rd : ByteSrc) (s : List Nat) :
    (hasPrefixFn c rd s).1 = (consume c rd s).1 ∧
    (hasPrefixFn c rd s).2 = (fillRuneBuffer c rd (runeCount s)).2 ∧
    ((consume c rd s).1 = false →
      (consume c rd s).2 = (fillRuneBuffer c rd (runeCount s)).2) ∧
    (hasPrefixFn c rd s).2.1.lineno = c.lineno ∧
    (hasPrefixFn c rd s).2.1.column = c.column ∧
    ((consume c rd s).1 = false →
      (consume c rd s).2.1.lineno = c.lineno ∧ (consume c rd s).2.1.column = c.column) ∧
    ((consume c rd s).1 = true →
      ∃ k, 1 ≤ k ∧ k ≤ (fillRuneBuffer c rd (runeCount s)).2.1.rabuf.length ∧
        (consume c rd s).2.1.rabuf
          = (fillRuneBuffer c rd (runeCount s)).2.1.rabuf.drop k ∧
        ((consume c rd s).2.1.lineno, (consume c rd s).2.1.column)
          = List.foldl posUpd
              ((fillRuneBuffer c rd (runeCount s)).2.1.lineno,
               (fillRuneBuffer c rd (runeCount s)).2.1.column)
              (((fillRuneBuffer c rd (runeCount s)).2.1.rabuf.take k).map Prod.fst)) := by
  obtain ⟨hfl, hfc, _⟩ := fillRuneBuffer_frame c rd (runeCount s)
  cases hfr : (fillRuneBuffer c rd (runeCount s)).1 with
  | some e =>
    refine ⟨?_, ?_, ?_, ?_, ?_, ?_, ?_⟩ <;>
      simp [hasPrefixFn, consume, hasPrefixCore, hfr, hfl, hfc]
  | none =>
    cases hwk : hasPrefixWalk (fillRuneBuffer c rd (runeCount s)).2.1.rabuf s 0
        (fillRuneBuffer c rd (runeCount s)).2.1.column with
    | none =>
      refine ⟨?_, ?_, ?_, ?_, ?_, ?_, ?_⟩
      · simp [hasPrefixFn, consume, hasPrefixCore, hfr, hwk]
      · simp [hasPrefixFn, hasPrefixCore, hfr, hwk]
      · intro _
        simp [consume, hasPrefixCore, hfr, hwk]
      · simpa [hasPrefixFn, hasPrefixCore, hfr, hwk] using hfl
      · simpa [hasPrefixFn, hasPrefixCore, hfr, hwk] using hfc
      · intro _
        constructor
        · simpa [consume, hasPrefixCore, hfr, hwk] using hfl
        · simpa [consume, hasPrefixCore, hfr, hwk] using hfc
      · intro htrue
        simp [consume, hasPrefixCore, hfr, hwk] at htrue
    | some out =>
      obtain ⟨rest, nl, col⟩ := out
      obtain ⟨k, hk1, hk2, hrest, d, hd, hfold⟩ := hasPrefixWalk_spec _ _ _ _ _ _ _ hwk
      refine ⟨?_, ?_, ?_, ?_, ?_, ?_, ?_⟩
      · simp [hasPrefixFn, consume, hasPrefixCore, hfr, hwk]
      · simp [hasPrefixFn, hasPrefixCore, hfr, hwk]
      · intro hfalse
        simp [consume, hasPrefixCore, hfr, hwk] at hfalse
      · simpa [hasPrefixFn, hasPrefixCore, hfr, hwk] using hfl
      · simpa [hasPrefixFn, hasPrefixCore, hfr, hwk] using hfc
      · intro hfalse
        simp [consume, hasPrefixCore, hfr, hwk] at hfalse
      · intro _
        refine ⟨k, hk1, hk2, ?_, ?_⟩
        · simp [consume, hasPrefixCore, hfr, hwk, hrest]
        · simp only [consume, hasPrefixCore, hfr, hwk]
          show ((fillRuneBuffer c rd (runeCount s)).2.1.lineno + nl, col) = _
          rw [hfold (fillRuneBuffer c rd (runeCount s)).2.1.lineno]
          have hnd : nl = d := by omega
          rw [hnd]

/-- C5 witness: the agreement and the false-case state preservation at
concrete inputs. -/
theorem C5_prefix_consume_agreement_witness :
    (hasPrefixFn (newRuneCursor 40) [[97, 98]] [97]).1
        = (consume (newRuneCursor 40) [[97, 98]] [97]).1 ∧
    (consume (newRuneCursor 40) [[120, 121]] [97]).2
        = (fillRuneBuffer (newRuneCursor 40) [[120, 121]] (runeCount [97])).2 :=
  ⟨(C5_prefix_consume_agreement (newRuneCursor 40) [[97, 98]] [97]).1,
   (C5_prefix_consume_agreement (newRuneCursor 40) [[120, 121]] [97]).2.2.1 (by decide)⟩

end Strcursor

namespace Strcursor

theorem hasPrefixFn_pos_frame (c : RuneCursor) (rd : ByteSrc) (s : List Nat) :
    (hasPrefixFn c rd s).2.1.lineno = c.lineno ∧
    (hasPrefixFn c rd s).2.1.column = c.column := by
  obtain ⟨hfl, hfc, _⟩ := fillRuneBuffer_frame c rd (runeCount s)
  simp only [hasPrefixFn, hasPrefixCore]
  split
  · exact ⟨hfl, hfc⟩
  · split
    · exact ⟨hfl, hfc⟩
    · split
      · rename_i hcontra
        simp at hcontra
      · exact ⟨hfl, hfc⟩

/-- The line/column after one operation equal the position fold over the runes
that operation consumed. -/
theorem step_pos (op : Op) (cr : RuneCursor × ByteSrc) :
    ((step cr op).1.lineno, (step cr op).1.column)
      = List.foldl posUpd (cr.1.lineno, cr.1.column) (consumedDelta cr op) := by
  obtain ⟨c, rd⟩ := cr
  cases op with
  | peekOp =>
    obtain ⟨h1, h2⟩ := peekN_frame c rd 1
    simp only [step, peek, consumedDelta, List.foldl_nil]
    rw [h1, h2]
  | peekNOp n =>
    obtain ⟨h1, h2⟩ := peekN_frame c rd n
    simp only [step, consumedDelta, List.foldl_nil]
    rw [h1, h2]
  | doneOp =>
    obtain ⟨h1, h2, _⟩ := fillRuneBuffer_frame c rd 1
    simp only [step, done, consumedDelta, List.foldl_nil]
    rw [h1, h2]
  | hasPrefixOp s =>
    obtain ⟨h1, h2⟩ := hasPrefixFn_pos_frame c rd s
    simp only [step, consumedDelta, List.foldl_nil]
    rw [h1, h2]
  | advanceOp n =>
    simp only [step, consumedDelta]
    rw [advance, advanceLoop_spec]
  | curOp =>
    obtain ⟨hfl, hfc, _⟩ := fillRuneBuffer_frame c rd 1
    cases hfr : (fillRuneBuffer c rd 1).1 with
    | some e =>
      simp only [step, cur, consumedDelta, hfr]
      simp [hfl, hfc]
    | none =>
      cases hq : (fillRuneBuffer c rd 1).2.1.rabuf with
      | nil =>
        simp only [step, cur, consumedDelta, hfr, hq]
        simp [hfl, hfc]
      | cons vw rest =>
        obtain ⟨v, w⟩ := vw
        have hadv := advanceLoop_spec 1 (fillRuneBuffer c rd 1).2.1 ((v, w) :: rest)
        simp only [step, cur, consumedDelta, hfr, hq]
        simp [advance, hq, hadv, hfl, hfc]
  | consumeOp s =>
    obtain ⟨hfl, hfc, _⟩ := fillRuneBuffer_frame c rd (runeCount s)
    cases hfr : (fillRuneBuffer c rd (runeCount s)).1 with
    | some e =>
      simp only [step, consume, hasPrefixCore, consumedDelta, hfr]
      simp [hfl, hfc]
    | none =>
      cases hwk : hasPrefixWalk (fillRuneBuffer c rd (runeCount s)).2.1.rabuf s 0
          (fillRuneBuffer c rd (runeCount s)).2.1.column with
      | none =>
        simp only [step, consume, hasPrefixCore, consumedDelta, hfr, hwk]
        simp [hfl, hfc]
      | some out =>
        obtain ⟨rest, nl, col⟩ := out
        obtain ⟨k, hk1, hk2, hrest, d, hd, hfold⟩ := hasPrefixWalk_spec _ _ _ _ _ _ _ hwk
        have hK : (fillRuneBuffer c rd (runeCount s)).2.1.rabuf.length - rest.length = k := by
          rw [hrest, List.length_drop]
          omega
        simp only [step, consume, hasPrefixCore, consumedDelta, hfr, hwk, hK]
        show ((fillRuneBuffer c rd (runeCount s)).2.1.lineno + nl, col) = _
        rw [hfc] at hfold
        rw [hfl, hfold c.lineno, show nl = d from by omega]

/-- Over any operation sequence, the final line/column equal the position
fold over the full consumed-rune trace. -/
theorem runTrace_pos (ops : List Op) : ∀ cr : RuneCursor × ByteSrc,
    ((runTrace cr ops).1.1.lineno, (runTrace cr ops).1.1.column)
      = List.foldl posUpd (cr.1.lineno, cr.1.column) (runTrace cr ops).2 := by
  induction ops with
  | nil => intro cr; simp [runTrace]
  | cons op ops ih =>
    intro cr
    simp only [runTrace]
    rw [List.foldl_append, ← step_pos op cr]
    exact ih (step cr op)

theorem foldl_posUpd_count (tr : List Nat) :
    List.foldl posUpd (1, 1) tr
      = (1 + List.count 10 tr,
         1 + (tr.reverse.takeWhile (fun r => r ≠ 10)).length) := by
  induction tr using List.reverseRecOn with
  | nil => simp
  | append_singleton xs x ih =>
    rw [List.foldl_append, ih]
    by_cases hx : x = 10
    · subst hx
      simp [posUpd, List.count_append]
      omega
    · simp [posUpd, hx, List.count_append, List.reverse_append, List.takeWhile_cons,
        List.count_singleton]
      omega

/-- C4: from a fresh cursor, after any sequence of public operations the line
number is 1 plus the number of consumed newline runes, and the column is 1
plus the number of runes consumed after the last consumed newline (peeks and
failed fills never move the position: only consumed runes enter the trace). -/
theorem C4_position_invariant (ops : List Op) (cap : Int) (rd : ByteSrc) :
    lineNumber (runTrace (newRuneCursor cap, rd) ops).1.1
        = 1 + List.count 10 (runTrace (newRuneCursor cap, rd) ops).2 ∧
    columnOf (runTrace (newRuneCursor cap, rd) ops).1.1
        = 1 + ((runTrace (newRuneCursor cap, rd) ops).2.reverse.takeWhile
            (fun r => r ≠ 10)).length := by
  have h := runTrace_pos ops (newRuneCursor cap, rd)
  rw [show ((newRuneCursor cap, rd) : RuneCursor × ByteSrc).1.lineno = 1 from rfl,
    show ((newRuneCursor cap, rd) : RuneCursor × ByteSrc).1.column = 1 from rfl,
    foldl_posUpd_count] at h
  rw [Prod.ext_iff] at h
  exact ⟨h.1, h.2⟩

end Strcursor

namespace Strcursor

theorem decodeAvailLoop_noerr (buf : List Nat) (buflen : Nat) : ∀ (fuel pos : Nat),
    NoErrorRune (decodeAvailLoop buf buflen pos fuel).1 := by
  intro fuel
  induction fuel with
  | zero => intro pos p hp; simp [decodeAvailLoop] at hp
  | succ f ih =>
    intro pos p hp
    simp only [decodeAvailLoop] at hp
    by_cases h1 : pos < buflen
    · rw [if_pos h1] at hp
      by_cases h2 : (decodeRune (buf.drop pos)).1 = runeError
      · rw [if_pos h2] at hp
        simp at hp
      · rw [if_neg h2] at hp
        rcases List.mem_cons.mp hp with hpe | hpm
        · rw [hpe]; exact h2
        · exact ih (pos + (decodeRune (buf.drop pos)).2) p hpm
    · rw [if_neg h1] at hp
      simp at hp

theorem decodeIntoRuneBuffer_noerr (c : RuneCursor) (h : NoErrorRune c.rabuf) :
    NoErrorRune (decodeIntoRuneBuffer c).rabuf := by
  simp only [decodeIntoRuneBuffer]
  by_cases hh : (decodeAvailLoop c.buf c.buflen c.bufpos (c.buflen - c.bufpos)).1.isEmpty
  · simpa [hh] using h
  · simpa [hh] using decodeAvailLoop_noerr c.buf c.buflen (c.buflen - c.bufpos) c.bufpos

theorem fillLoop_noerr (fuel : Nat) : ∀ (n : Nat) (c : RuneCursor) (rd : ByteSrc) (prev : Int),
    NoErrorRune c.rabuf → NoErrorRune (fillLoop n c rd prev fuel).2.1.rabuf := by
  induction fuel with
  | zero => intro n c rd prev h; simpa [fillLoop] using h
  | succ f ih =>
    intro n c rd prev h
    by_cases hok : (n : Int) ≤ (decodeIntoRuneBuffer c).rabuflen
    · rw [fillLoop_success n c rd prev f hok]
      exact decodeIntoRuneBuffer_noerr c h
    · obtain ⟨d, flag, rd', hrd⟩ : ∃ d flag rd', readerRead rd
          ((afterCompact (decodeIntoRuneBuffer c)).buf.length
            - (afterCompact (decodeIntoRuneBuffer c)).bufpos) = (d, flag, rd') :=
        ⟨_, _, _, rfl⟩
      cases flag with
      | true =>
        have hd : d = [] := by
          have h2 := readerRead_eof_empty rd
            ((afterCompact (decodeIntoRuneBuffer c)).buf.length
              - (afterCompact (decodeIntoRuneBuffer c)).bufpos)
          rw [hrd] at h2
          exact h2 rfl
        subst hd
        rw [fillLoop_eof n c rd prev f rd' hok hrd]
        exact decodeIntoRuneBuffer_noerr c h
      | false =>
        rw [fillLoop_read n c rd prev f d rd' hok hrd]
        have h4 : NoErrorRune (decodeIntoRuneBuffer
            { afterCompact (decodeIntoRuneBuffer c) with
              buf := writeAt (afterCompact (decodeIntoRuneBuffer c)).buf
                  (afterCompact (decodeIntoRuneBuffer c)).bufpos d
              buflen := d.length }).rabuf :=
          decodeIntoRuneBuffer_noerr _ (decodeIntoRuneBuffer_noerr c h)
        split
        · exact h4
        · exact ih n _ rd' _ h4

theorem fillRuneBuffer_noerr (c : RuneCursor) (rd : ByteSrc) (n : Nat)
    (h : NoErrorRune c.rabuf) : NoErrorRune (fillRuneBuffer c rd n).2.1.rabuf := by
  by_cases hp : (n : Int) ≤ c.rabuflen
  · rw [fillRuneBuffer_pre c rd n hp]
    exact h
  · rw [fillRuneBuffer_loop c rd n hp]
    exact fillLoop_noerr (n + 2) n c rd c.rabuflen h

theorem noErrorRune_drop (l : List (Nat × Nat)) (k : Nat) (h : NoErrorRune l) :
    NoErrorRune (l.drop k) := fun p hp => h p (List.drop_subset k l hp)

theorem step_noerr (c : RuneCursor) (rd : ByteSrc) (op : Op) (h : NoErrorRune c.rabuf) :
    NoErrorRune (step (c, rd) op).1.rabuf := by
  have hfill : ∀ m, NoErrorRune (fillRuneBuffer c rd m).2.1.rabuf :=
    fun m => fillRuneBuffer_noerr c rd m h
  cases op with
  | curOp =>
    simp only [step, cur]
    cases hfr : (fillRuneBuffer c rd 1).1 with
    | some e => simpa [hfr] using hfill 1
    | none =>
      cases hq : (fillRuneBuffer c rd 1).2.1.rabuf with
      | nil => simpa [hfr, hq] using hfill 1
      | cons vw rest =>
        obtain ⟨v, w⟩ := vw
        have hadv := advanceLoop_spec 1 (fillRuneBuffer c rd 1).2.1 ((v, w) :: rest)
        have hrest : NoErrorRune rest := by
          intro p hp
          exact hfill 1 p (by rw [hq]; exact List.mem_cons_of_mem _ hp)
        simpa [hfr, hq, advance, hadv] using hrest
  | peekOp =>
    simp only [step, peek, peekN]
    split
    · exact hfill 1
    · split
      · exact hfill 1
      · exact hfill 1
  | peekNOp n =>
    simp only [step, peekN]
    split
    · exact hfill n
    · split
      · exact hfill n
      · exact hfill n
  | doneOp =>
    simp only [step, done]
    exact hfill 1
  | advanceOp n =>
    simp only [step]
    rw [advance, advanceLoop_spec]
    by_cases hlen : c.rabuf.length < n
    · simpa [hlen] using h
    · simpa [hlen] using noErrorRune_drop c.rabuf n h
  | hasPrefixOp s =>
    simp only [step, hasPrefixFn, hasPrefixCore]
    split
    · exact hfill (runeCount s)
    · split
      · exact hfill (runeCount s)
      · split
        · rename_i hcontra
          simp at hcontra
        · exact hfill (runeCount s)
  | consumeOp s =>
    simp only [step, consume, hasPrefixCore]
    cases hfr : (fillRuneBuffer c rd (runeCount s)).1 with
    | some e => simpa [hfr] using hfill (runeCount s)
    | none =>
      cases hwk : hasPrefixWalk (fillRuneBuffer c rd (runeCount s)).2.1.rabuf s 0
          (fillRuneBuffer c rd (runeCount s)).2.1.column with
      | none => simpa [hfr, hwk] using hfill (runeCount s)
      | some out =>
        obtain ⟨rest, nl, col⟩ := out
        obtain ⟨k, _, _, hrest, _⟩ := hasPrefixWalk_spec _ _ _ _ _ _ _ hwk
        simp only [hfr, hwk]
        simp
        rw [hrest]
        exact noErrorRune_drop _ k (hfill (runeCount s))

/-- C10: the cursor never enqueues U+FFFD as data — every decoded node differs
from the replacement character, the valid three-byte encoding of U+FFFD makes
the refill fail fatally, and a U+FFFD returned by `Cur` or `PeekN` can only
come from the failure path (the refill reported an error). -/
theorem C10_no_replacement_delivered (c : RuneCursor) (rd : ByteSrc)
    (h : NoErrorRune c.rabuf) :
    (∀ op, NoErrorRune (step (c, rd) op).1.rabuf) ∧
    ((cur c rd).1 = some runeError → (fillRuneBuffer c rd 1).1.isSome = true) ∧
    (∀ n, (peekN c rd n).1 = some runeError → (fillRuneBuffer c rd n).1.isSome = true) ∧
    (fillRuneBuffer (newRuneCursor 40) [[0xEF, 0xBF, 0xBD]] 1).1.isSome = true ∧
    decodeRune [0xEF, 0xBF, 0xBD] = (runeError, 3) := by
  refine ⟨fun op => step_noerr c rd op h, ?_, ?_, by decide, by decide⟩
  · intro hcur
    cases hfr : (fillRuneBuffer c rd 1).1 with
    | some e => simp [hfr]
    | none =>
      exfalso
      cases hq : (fillRuneBuffer c rd 1).2.1.rabuf with
      | nil => simp [cur, hfr, hq] at hcur
      | cons vw rest =>
        obtain ⟨v, w⟩ := vw
        have hv : v = runeError := by
          simp [cur, hfr, hq] at hcur
          exact hcur
        exact fillRuneBuffer_noerr c rd 1 h (v, w)
          (by rw [hq]; exact List.mem_cons_self _ _) hv
  · intro n hpk
    cases hfr : (fillRuneBuffer c rd n).1 with
    | some e => simp [hfr]
    | none =>
      exfalso
      cases hg : (fillRuneBuffer c rd n).2.1.rabuf[n - 1]? with
      | none => simp [peekN, hfr, hg, List.get?_eq_getElem?] at hpk
      | some vw =>
        have hv : vw.1 = runeError := by
          simp [peekN, hfr, hg, List.get?_eq_getElem?] at hpk
          exact hpk
        exact fillRuneBuffer_noerr c rd n h vw
          (List.get?_mem (by rw [List.get?_eq_getElem?]; exact hg)) hv

/-- C10 witness: the source delivering exactly the UTF-8 bytes of U+FFFD
makes the first refill fail. -/
theorem C10_no_replacement_delivered_witness :
    (fillRuneBuffer (newRuneCursor 40) [[0xEF, 0xBF, 0xBD]] 1).1.isSome = true :=
  (C10_no_replacement_delivered (newRuneCursor 40) []
    (fun p hp => absurd hp (by simp [newRuneCursor]))).2.2.2.1

/-- C1 witness at the spec scenario "a\nb" with the default capacity. -/
theorem C1_single_read_enumeration_witness :
    (curRun (newRuneCursor ((40 : Nat) : Int)) [encodeString [97, 10, 98]]
        [97, 10, 98].length).1 = [97, 10, 98].map some ∧
    (done (curRun (newRuneCursor ((40 : Nat) : Int)) [encodeString [97, 10, 98]]
        [97, 10, 98].length).2.1
      (curRun (newRuneCursor ((40 : Nat) : Int)) [encodeString [97, 10, 98]]
        [97, 10, 98].length).2.2).1 = true :=
  C1_single_read_enumeration [97, 10, 98] (by decide) 40 (by decide) (by decide)

end Strcursor
